import Mathlib

/-!
# Tamagometer companion: IR frame decoder, encoder and listen session

A shallow embedding of `tamagometer_companion.c`.

* Durations are `uint32_t` in the source; here they are `Nat`, and the
  arithmetic of `MATCH_TIMING` is reduced modulo `2 ^ 32` explicitly.
* A raw signal is the list of its timings; `timings_cnt` is its length.
* `unsigned char` / `char` buffers are lists of `Char`; a store
  `buf[i] = c` is `buf.set i c`.
* A function that returns `bool` and writes through a pointer returns the
  pair of the verdict and the buffer after the call.
-/

namespace Tamagometer

/-! ## Timing profile -/

/-- The modulus of `uint32_t` arithmetic. -/
def UINT32_MOD : Nat := 4294967296

/-- Unsigned 32-bit addition. -/
def u32_add (a b : Nat) : Nat := (a + b) % UINT32_MOD

/-- Unsigned 32-bit subtraction (wraps around below zero). -/
def u32_sub (a b : Nat) : Nat := (a % UINT32_MOD + (UINT32_MOD - b % UINT32_MOD)) % UINT32_MOD

/-- The macro `MATCH_TIMING(x, v, delta)`:
`((x) < ((v) + (delta))) && ((x) > ((v) - (delta)))` over `uint32_t`. -/
def MATCH_TIMING (x v delta : Nat) : Bool :=
  decide (x < u32_add v delta) && decide (x > u32_sub v delta)

/-- The struct `DecoderStates`. -/
structure DecoderStates where
  header_mark : Nat
  header_mark_tolerance : Nat
  header_space : Nat
  header_space_tolerance : Nat
  data_mark : Nat
  data_mark_tolerance : Nat
  data_0_space : Nat
  data_0_space_tolerance : Nat
  data_1_space : Nat
  data_1_space_tolerance : Nat
  ending_mark : Nat
  ending_mark_tolerance : Nat

/-- The global `decoder_states` (all in micro-seconds). -/
def decoder_states : DecoderStates where
  header_mark := 9600
  header_mark_tolerance := 2000
  header_space := 5000
  header_space_tolerance := 1500
  data_mark := 550
  data_mark_tolerance := 300
  data_0_space := 600
  data_0_space_tolerance := 400
  data_1_space := 1500
  data_1_space_tolerance := 500
  ending_mark := 1100
  ending_mark_tolerance := 250

/-- The six (expected, tolerance) pairs of `decoder_states`, in the order of
the struct's fields. -/
def timingProfile : List (Nat × Nat) :=
  [(decoder_states.header_mark, decoder_states.header_mark_tolerance),
   (decoder_states.header_space, decoder_states.header_space_tolerance),
   (decoder_states.data_mark, decoder_states.data_mark_tolerance),
   (decoder_states.data_0_space, decoder_states.data_0_space_tolerance),
   (decoder_states.data_1_space, decoder_states.data_1_space_tolerance),
   (decoder_states.ending_mark, decoder_states.ending_mark_tolerance)]

/-! ## Decoder -/

/-- The read `timings[i]` of the raw signal. The decoder only reads below
`timings_cnt` (it returns early on a short signal), so the default is never
used by it. -/
def readTiming (timings : List Nat) (i : Nat) : Nat := timings.getD i 0

/-- The `for` loop of `decode_signal_to_tamabits`: `n` iterations remain,
`data_bit` is the loop counter, `timing` the running offset. An iteration
whose mark does not match stores nothing and goes on (the outer `if` has no
`else`). -/
def decodeLoop (timings : List Nat) : Nat → Nat → Nat → List Char → Bool × List Char
  | 0, _, _, data_bits => (true, data_bits)
  | n + 1, data_bit, timing, data_bits =>
    if MATCH_TIMING (readTiming timings timing)
        decoder_states.data_mark decoder_states.data_mark_tolerance then
      if MATCH_TIMING (readTiming timings (timing + 1))
          decoder_states.data_0_space decoder_states.data_0_space_tolerance then
        decodeLoop timings n (data_bit + 1) (timing + 2) (data_bits.set data_bit '0')
      else if MATCH_TIMING (readTiming timings (timing + 1))
          decoder_states.data_1_space decoder_states.data_1_space_tolerance then
        decodeLoop timings n (data_bit + 1) (timing + 2) (data_bits.set data_bit '1')
      else
        (false, data_bits)
    else
      decodeLoop timings n (data_bit + 1) (timing + 2) data_bits

/-- The function `decode_signal_to_tamabits`: the verdict and the content of
`data_bits` after the call. -/
def decode_signal_to_tamabits (timings : List Nat) (data_bits : List Char) :
    Bool × List Char :=
  if timings.length < 323 then
    (false, data_bits)
  else if !(MATCH_TIMING (readTiming timings 0)
        decoder_states.header_mark decoder_states.header_mark_tolerance &&
      MATCH_TIMING (readTiming timings 1)
        decoder_states.header_space decoder_states.header_space_tolerance) then
    (false, data_bits)
  else
    decodeLoop timings 160 0 2 data_bits

/-! ## Encoder -/

/-- The terminator of a C string. -/
def NUL : Char := Char.ofNat 0

/-- The C string held by a character buffer: the characters before the first
terminator. -/
def cstr (s : List Char) : List Char := s.takeWhile (fun c => c != NUL)

/-- The library function `strlen`. -/
def strlen (s : List Char) : Nat := (cstr s).length

/-- The read `bitstring[i]`; past the characters of the buffer stands the
terminator. -/
def readChar (s : List Char) (i : Nat) : Char := s.getD i NUL

/-- The `for` loop of `tamabits_to_timings` followed by the store of the
ending mark: `n` iterations remain, `i` is the loop counter, `t` the running
offset. -/
def encodeLoop (bitstring : List Char) : Nat → Nat → Nat → List Nat → Bool × List Nat
  | 0, _, t, timings => (true, timings.set t decoder_states.ending_mark)
  | n + 1, i, t, timings =>
    let timings1 := timings.set t decoder_states.data_mark
    if readChar bitstring i = '0' then
      encodeLoop bitstring n (i + 1) (t + 2) (timings1.set (t + 1) decoder_states.data_0_space)
    else if readChar bitstring i = '1' then
      encodeLoop bitstring n (i + 1) (t + 2) (timings1.set (t + 1) decoder_states.data_1_space)
    else
      (false, timings1)

/-- The function `tamabits_to_timings`: the verdict and the content of
`timings` after the call. -/
def tamabits_to_timings (bitstring : List Char) (timings : List Nat) : Bool × List Nat :=
  if strlen bitstring ≠ 160 then
    (false, timings)
  else
    encodeLoop bitstring 160 0 2
      ((timings.set 0 decoder_states.header_mark).set 1 decoder_states.header_space)

/-! ## Output framing and the listen session -/

/-- One output of the program: a `pipe_send` of some bytes to the pipe, or a
`printf` of a text. (`FURI_LOG_I` writes to the log and is left out.) -/
inductive Output where
  | pipe_send (bytes : List Char)
  | printf (text : List Char)
  deriving DecidableEq

/-- The bytes `pipe_send(pipe, literal, len)` takes from a string literal: the
array of the literal is its characters followed by the terminator, and the
call sends the first `len` bytes of it. -/
def literalBytes (literal : List Char) (len : Nat) : List Char :=
  (literal ++ [NUL]).take len

/-- The two flags of the static `app_state` (the lock is not modelled). -/
structure AppState where
  command_decoded : Bool
  timed_out : Bool
  deriving DecidableEq

/-- The function `signal_received_callback`: `tamabits` is the content of the
uninitialised local array when the call starts; the result is the flags after
the call and the outputs it made, in order. -/
def signal_received_callback (received_signal : List Nat) (tamabits : List Char)
    (app_state : AppState) : AppState × List Output :=
  let r := decode_signal_to_tamabits received_signal tamabits
  if r.1 then
    (AppState.mk true app_state.timed_out,
      [Output.pipe_send (literalBytes ['[', 'P', 'I', 'C', 'O', ']'] 6),
       Output.pipe_send (r.2.take 160),
       Output.pipe_send (literalBytes ['[', 'E', 'N', 'D', ']'] 6)])
  else
    (app_state, [Output.printf "Invalid signal received".toList])

/-- The function `timed_out_callback`. -/
def timed_out_callback (app_state : AppState) : AppState :=
  AppState.mk app_state.command_decoded true

/-- The condition of the `while` loop of `listen`; `pipe_broken` is the answer
of `cli_is_pipe_broken_or_is_etx_next_char`. -/
def listen_waits (app_state : AppState) (pipe_broken : Bool) : Bool :=
  !(app_state.command_decoded || app_state.timed_out || pipe_broken)

/-- The output of `listen` after its loop: the timeout frame when `timed_out`
is set. -/
def listen_after_loop (app_state : AppState) : List Output :=
  if app_state.timed_out then [Output.printf "[PICO]timed out[END]".toList] else []

/-- Where the thread that runs `listen` stands: in its loop; past the loop
and before the test of `timed_out`; past that test, with the worker and the
timer still running; past `infrared_worker_rx_stop`, with the timer still
armed; past `furi_timer_stop`. -/
inductive Phase where
  | polling
  | leftLoop
  | tested
  | workerStopped
  | returned
  deriving DecidableEq

/-- One listen session: the flags, the place of `listen` and the outputs so
far. -/
structure Session where
  app_state : AppState
  phase : Phase
  out : List Output

/-- What can happen during a session: the worker calls
`signal_received_callback` on a signal (with some content of the callback's
local array), the timer fires, the loop of `listen` tests its condition,
`listen` runs the `if` on `timed_out` that follows its loop, `listen` stops
and frees the worker, and `listen` stops and frees the timer. -/
inductive Event where
  | signal (received_signal : List Nat) (tamabits : List Char)
  | timer
  | poll (pipe_broken : Bool)
  | leave
  | stopWorker
  | stopTimer

/-- The session at the start of `listen`: `tamagometer_start_cli` has cleared
both flags. -/
def Session.start : Session :=
  Session.mk (AppState.mk false false) Phase.polling []

/-- One step of a session. The callback of the worker runs until the worker
is stopped, the callback of the timer until the timer is stopped, which is
after the test of `timed_out` and after the stop of the worker; neither
callback looks at the flags before it acts. The steps of `listen` happen in
the order of its text. -/
def Session.step (s : Session) : Event → Session
  | Event.signal received_signal tamabits =>
    if s.phase = Phase.workerStopped ∨ s.phase = Phase.returned then s
    else
      let r := signal_received_callback received_signal tamabits s.app_state
      Session.mk r.1 s.phase (s.out ++ r.2)
  | Event.timer =>
    if s.phase = Phase.returned then s
    else Session.mk (timed_out_callback s.app_state) s.phase s.out
  | Event.poll pipe_broken =>
    if s.phase = Phase.polling then
      if listen_waits s.app_state pipe_broken then s
      else Session.mk s.app_state Phase.leftLoop s.out
    else s
  | Event.leave =>
    if s.phase = Phase.leftLoop then
      Session.mk s.app_state Phase.tested (s.out ++ listen_after_loop s.app_state)
    else s
  | Event.stopWorker =>
    if s.phase = Phase.tested then Session.mk s.app_state Phase.workerStopped s.out
    else s
  | Event.stopTimer =>
    if s.phase = Phase.workerStopped then Session.mk s.app_state Phase.returned s.out
    else s

/-- A run of a session: the events in order. -/
def Session.run (s : Session) (events : List Event) : Session :=
  events.foldl Session.step s

/-- An output that opens a frame: it starts with the begin marker. -/
def opensFrame : Output → Bool
  | Output.pipe_send bytes => bytes.take 6 == ['[', 'P', 'I', 'C', 'O', ']']
  | Output.printf text => text.take 6 == ['[', 'P', 'I', 'C', 'O', ']']

/-- The number of frames among some outputs. -/
def framesEmitted (out : List Output) : Nat := out.countP opensFrame

/-- The bytes sent to the pipe, in order. -/
def pipeBytes : List Output → List Char
  | [] => []
  | Output.pipe_send bytes :: rest => bytes ++ pipeBytes rest
  | Output.printf _ :: rest => pipeBytes rest

/-! ## The decoder with its reads -/

/-- The loop of `decode_signal_to_tamabits` as in `decodeLoop`, together with
the indices of `timings` it reads, in order (one entry for each use of
`MATCH_TIMING`; the `else if` reads the space a second time). -/
def decodeLoopTraced (timings : List Nat) :
    Nat → Nat → Nat → List Char → List Nat → (Bool × List Char) × List Nat
  | 0, _, _, data_bits, reads => ((true, data_bits), reads)
  | n + 1, data_bit, timing, data_bits, reads =>
    if MATCH_TIMING (readTiming timings timing)
        decoder_states.data_mark decoder_states.data_mark_tolerance then
      if MATCH_TIMING (readTiming timings (timing + 1))
          decoder_states.data_0_space decoder_states.data_0_space_tolerance then
        decodeLoopTraced timings n (data_bit + 1) (timing + 2) (data_bits.set data_bit '0')
          (reads ++ [timing, timing + 1])
      else if MATCH_TIMING (readTiming timings (timing + 1))
          decoder_states.data_1_space decoder_states.data_1_space_tolerance then
        decodeLoopTraced timings n (data_bit + 1) (timing + 2) (data_bits.set data_bit '1')
          (reads ++ [timing, timing + 1, timing + 1])
      else
        ((false, data_bits), reads ++ [timing, timing + 1, timing + 1])
    else
      decodeLoopTraced timings n (data_bit + 1) (timing + 2) data_bits (reads ++ [timing])

/-- The function `decode_signal_to_tamabits` as above, together with the
indices of `timings` it reads, in order. The `&&` of the preamble test reads
`timings[1]` only when `timings[0]` matches. -/
def decode_signal_to_tamabits_traced (timings : List Nat) (data_bits : List Char) :
    (Bool × List Char) × List Nat :=
  if timings.length < 323 then
    ((false, data_bits), [])
  else if !MATCH_TIMING (readTiming timings 0)
      decoder_states.header_mark decoder_states.header_mark_tolerance then
    ((false, data_bits), [0])
  else if !MATCH_TIMING (readTiming timings 1)
      decoder_states.header_space decoder_states.header_space_tolerance then
    ((false, data_bits), [0, 1])
  else
    decodeLoopTraced timings 160 0 2 data_bits [0, 1]

/-- A variant of `decodeLoop` that is not in the source: it tests the
data-1-space window before the data-0-space window. It only serves to state
that the order of the two tests does not matter. -/
def decodeLoopOneFirst (timings : List Nat) : Nat → Nat → Nat → List Char → Bool × List Char
  | 0, _, _, data_bits => (true, data_bits)
  | n + 1, data_bit, timing, data_bits =>
    if MATCH_TIMING (readTiming timings timing)
        decoder_states.data_mark decoder_states.data_mark_tolerance then
      if MATCH_TIMING (readTiming timings (timing + 1))
          decoder_states.data_1_space decoder_states.data_1_space_tolerance then
        decodeLoopOneFirst timings n (data_bit + 1) (timing + 2) (data_bits.set data_bit '1')
      else if MATCH_TIMING (readTiming timings (timing + 1))
          decoder_states.data_0_space decoder_states.data_0_space_tolerance then
        decodeLoopOneFirst timings n (data_bit + 1) (timing + 2) (data_bits.set data_bit '0')
      else
        (false, data_bits)
    else
      decodeLoopOneFirst timings n (data_bit + 1) (timing + 2) data_bits

/-! ## Sending -/

/-- A call `infrared_send_raw(timings, timings_cnt, flag)`: the first
`timings_cnt` entries of the array, the count and the third argument. -/
structure IrSend where
  timings : List Nat
  timings_cnt : Nat
  flag : Bool
  deriving DecidableEq

/-- The function `send`: `timings` is the content of the uninitialised local
array of `2 + 320 + 1` entries when the call starts; the result is the list of
the transmit requests it makes. -/
def send (bitstring : List Char) (timings : List Nat) : List IrSend :=
  let r := tamabits_to_timings bitstring timings
  if r.1 then [IrSend.mk (r.2.take 323) 323 true] else []

/-! ## The command line -/

/-- The library function `isspace` in the C locale: the space and the
characters 9 to 13. -/
def isspace (c : Char) : Bool :=
  c = Char.ofNat 32 || (decide (9 ≤ c.toNat) && decide (c.toNat ≤ 13))

/-- Matching of the ordinary characters of a `sscanf` format against the
input, after the C standard: the rest of the input when all of them match;
otherwise the value `sscanf` returns, which is -1 (`EOF`) when the input ends
first (an input failure before the first conversion) and 0 when a character
differs (a matching failure). -/
def scanLiteral : List Char → List Char → Except Int (List Char)
  | [], input => Except.ok input
  | _ :: _, [] => Except.error (-1)
  | f :: fs, c :: cs => if c = f then scanLiteral fs cs else Except.error 0

/-- The call `sscanf(args_string, "send%s", bitstring)` into
`char bitstring[161]`, after the C standard: the value returned and the C
string held by `bitstring` after the call. The directive `%s` skips white
space and stores the run of characters up to the next white space, followed by
a terminator; when the input ends before such a run the call returns -1 and
stores nothing, so `bitstring` keeps what it held. The directive has no width:
a run of more than 160 characters does not fit the array with its terminator
and is written past its end. The behaviour is then undefined, and the result
is `none`. -/
def sscanf_send (args_string : List Char) (bitstring : List Char) :
    Option (Int × List Char) :=
  match scanLiteral ['s', 'e', 'n', 'd'] (cstr args_string) with
  | Except.error r => some (r, bitstring)
  | Except.ok rest =>
    match rest.dropWhile isspace with
    | [] => some (-1, bitstring)
    | c :: cs =>
      if ((c :: cs).takeWhile (fun x => !isspace x)).length ≤ 160 then
        some (1, (c :: cs).takeWhile (fun x => !isspace x))
      else none

/-- The test `strcmp(a, b) == 0`: the two C strings are equal. -/
def strcmp_eq (a b : List Char) : Bool := cstr a == cstr b

/-- What `tamagometer_start_cli` goes on to do: call `send` on the scanned
string (with the transmit requests `send` makes), call `listen`, or print. -/
inductive CliOutcome where
  | send (bitstring : List Char) (requests : List IrSend)
  | listen
  | invalid (out : List Output)
  deriving DecidableEq

/-- The texts of the two `printf` calls of the last branch of
`tamagometer_start_cli`. -/
def invalidArgumentMessage (args_string : List Char) : List Output :=
  [Output.printf ("Arguments: ".toList ++ [Char.ofNat 34] ++ cstr args_string ++
      [Char.ofNat 34, Char.ofNat 10]),
   Output.printf ("Invalid argument(s).".toList ++ [Char.ofNat 10])]

/-- The function `tamagometer_start_cli`: `bitstring` and `timings` are the
contents of the uninitialised local arrays of `tamagometer_start_cli` and of
`send`. The result is the flags after the reset and what the function goes on
to do, or `none` when the call of `sscanf` has undefined behaviour. The branch
on `sscanf` is taken for every value other than 0. (The lock is not
modelled.) -/
def tamagometer_start_cli (args_string : List Char) (bitstring : List Char)
    (timings : List Nat) : Option (AppState × CliOutcome) :=
  match sscanf_send args_string bitstring with
  | none => none
  | some r =>
    if r.1 ≠ 0 then
      some (AppState.mk false false, CliOutcome.send r.2 (send r.2 timings))
    else if strcmp_eq args_string ['l', 'i', 's', 't', 'e', 'n'] then
      some (AppState.mk false false, CliOutcome.listen)
    else
      some (AppState.mk false false, CliOutcome.invalid (invalidArgumentMessage args_string))

/-! ## Runs of a session without a decoded signal -/

/-- An event that is a callback on a signal that decodes. -/
def Event.decodes : Event → Bool
  | Event.signal received_signal tamabits =>
    (decode_signal_to_tamabits received_signal tamabits).1
  | _ => false

/-! ## Test signals -/

/-- The well-formed signal of the all-zero message: 9600, 5000, then 160 pairs
(550, 600), then 1100. -/
def zeroSignal : List Nat :=
  [9600, 5000] ++ (List.replicate 160 [550, 600]).flatten ++ [1100]

/-- The signal `zeroSignal` with its first data mark (offset 2) set to 0. -/
def badMarkSignal : List Nat := zeroSignal.set 2 0

/-- The signal 9600, 5000, then 160 pairs (550, 600), then `last`. -/
def zeroSignalWith (last : Nat) : List Nat :=
  [9600, 5000] ++ (List.replicate 160 [550, 600]).flatten ++ [last]

/-! ## Helper lemmas: the tolerance matcher -/

/-- Without wrap-around the macro is the open interval test. -/
theorem MATCH_TIMING_nowrap (x v d : Nat) (h1 : d ≤ v) (h2 : v + d < UINT32_MOD) :
    MATCH_TIMING x v d = true ↔ v - d < x ∧ x < v + d := by
  unfold MATCH_TIMING u32_add u32_sub
  unfold UINT32_MOD at *
  simp only [Bool.and_eq_true, decide_eq_true_eq]
  omega

/-! ## Helper lemmas: the decoder -/

/-- A read that finds a value. -/
theorem readTiming_of_getElem? (l : List Nat) (i v : Nat) (h : l[i]? = some v) :
    readTiming l i = v := by
  simp [readTiming, h]

/-- The loop never changes the length of the buffer. -/
theorem decodeLoop_length (timings : List Nat) :
    ∀ (n data_bit timing : Nat) (buf : List Char),
      (decodeLoop timings n data_bit timing buf).2.length = buf.length := by
  intro n
  induction n with
  | zero => intro d t buf; rfl
  | succ n ih =>
    intro d t buf
    unfold decodeLoop
    split
    · split
      · rw [ih]; simp
      · split
        · rw [ih]; simp
        · rfl
    · rw [ih]

/-- The decoder never changes the length of the buffer. -/
theorem decode_length (timings : List Nat) (buf : List Char) :
    (decode_signal_to_tamabits timings buf).2.length = buf.length := by
  unfold decode_signal_to_tamabits
  split
  · rfl
  · split
    · rfl
    · exact decodeLoop_length timings 160 0 2 buf

/-- The loop accepts when every iteration whose mark matches finds a space in
one of the two space windows; it keeps the length of the buffer, stores the
symbol of the space at each iteration whose mark matches and leaves every
other byte as it was. -/
theorem decodeLoop_true (timings : List Nat) :
    ∀ (n data_bit timing : Nat) (buf : List Char),
      data_bit + n ≤ buf.length →
      (∀ k, k < n →
        MATCH_TIMING (readTiming timings (timing + 2 * k))
          decoder_states.data_mark decoder_states.data_mark_tolerance = true →
        MATCH_TIMING (readTiming timings (timing + 2 * k + 1))
          decoder_states.data_0_space decoder_states.data_0_space_tolerance = true ∨
        MATCH_TIMING (readTiming timings (timing + 2 * k + 1))
          decoder_states.data_1_space decoder_states.data_1_space_tolerance = true) →
      (decodeLoop timings n data_bit timing buf).1 = true ∧
      (decodeLoop timings n data_bit timing buf).2.length = buf.length ∧
      (∀ k, k < n →
        (decodeLoop timings n data_bit timing buf).2[data_bit + k]? =
          if MATCH_TIMING (readTiming timings (timing + 2 * k))
              decoder_states.data_mark decoder_states.data_mark_tolerance = true then
            (if MATCH_TIMING (readTiming timings (timing + 2 * k + 1))
                decoder_states.data_0_space decoder_states.data_0_space_tolerance = true
              then some '0' else some '1')
          else buf[data_bit + k]?) ∧
      (∀ j, j < data_bit ∨ data_bit + n ≤ j →
        (decodeLoop timings n data_bit timing buf).2[j]? = buf[j]?) := by
  intro n
  induction n with
  | zero =>
    intro d t buf _ _
    simp [decodeLoop]
  | succ n ih =>
    intro d t buf hlen hsp
    have hrest : ∀ k, k < n →
        MATCH_TIMING (readTiming timings (t + 2 + 2 * k))
          decoder_states.data_mark decoder_states.data_mark_tolerance = true →
        MATCH_TIMING (readTiming timings (t + 2 + 2 * k + 1))
          decoder_states.data_0_space decoder_states.data_0_space_tolerance = true ∨
        MATCH_TIMING (readTiming timings (t + 2 + 2 * k + 1))
          decoder_states.data_1_space decoder_states.data_1_space_tolerance = true := by
      intro k hk
      have e : t + 2 + 2 * k = t + 2 * (k + 1) := by omega
      rw [e]
      exact hsp (k + 1) (by omega)
    have h0 := hsp 0 (by omega)
    simp only [Nat.mul_zero, Nat.add_zero] at h0
    -- the buffer after the first iteration
    have hstep : ∃ buf1 : List Char,
        decodeLoop timings (n + 1) d t buf = decodeLoop timings n (d + 1) (t + 2) buf1 ∧
        buf1.length = buf.length ∧ (∀ j, j ≠ d → buf1[j]? = buf[j]?) ∧
        buf1[d]? =
          (if MATCH_TIMING (readTiming timings t)
              decoder_states.data_mark decoder_states.data_mark_tolerance = true then
            (if MATCH_TIMING (readTiming timings (t + 1))
                decoder_states.data_0_space decoder_states.data_0_space_tolerance = true
              then some '0' else some '1')
          else buf[d]?) := by
      have hd : d < buf.length := by omega
      by_cases hm : MATCH_TIMING (readTiming timings t)
          decoder_states.data_mark decoder_states.data_mark_tolerance = true
      · by_cases hz : MATCH_TIMING (readTiming timings (t + 1))
            decoder_states.data_0_space decoder_states.data_0_space_tolerance = true
        · refine ⟨buf.set d '0', by simp [decodeLoop, hm, hz], by simp, ?_, ?_⟩
          · intro j hj
            exact List.getElem?_set_ne (Ne.symm hj)
          · simp [hm, hz, List.getElem?_set_self hd]
        · have ho := (h0 hm).resolve_left hz
          refine ⟨buf.set d '1', by simp [decodeLoop, hm, hz, ho], by simp, ?_, ?_⟩
          · intro j hj
            exact List.getElem?_set_ne (Ne.symm hj)
          · simp [hm, hz, List.getElem?_set_self hd]
      · exact ⟨buf, by simp [decodeLoop, hm], rfl, fun _ _ => rfl, by simp [hm]⟩
    obtain ⟨buf1, heq, hl1, hne, hd⟩ := hstep
    obtain ⟨r1, r2, r3, r4⟩ := ih (d + 1) (t + 2) buf1 (by omega) hrest
    rw [heq]
    refine ⟨r1, by omega, ?_, ?_⟩
    · intro k hk
      cases k with
      | zero =>
        simp only [Nat.mul_zero, Nat.add_zero]
        rw [r4 d (Or.inl (by omega))]
        exact hd
      | succ k =>
        have e1 : d + (k + 1) = d + 1 + k := by omega
        have e2 : t + 2 * (k + 1) = t + 2 + 2 * k := by omega
        rw [e1, e2, r3 k (by omega), hne (d + 1 + k) (by omega)]
    · intro j hj
      rw [r4 j (by omega), hne j (by omega)]

/-- The decoder accepts a signal that is long enough, has a matching preamble
and has, after each matching data mark, a space in one of the two windows. The
byte of an iteration is the symbol of its space when its mark matches, and
the byte the buffer held before when it does not. -/
theorem decode_accepts (timings : List Nat) (buf : List Char)
    (hlen : 323 ≤ timings.length) (hbuf : buf.length = 160)
    (hhm : MATCH_TIMING (readTiming timings 0)
      decoder_states.header_mark decoder_states.header_mark_tolerance = true)
    (hhs : MATCH_TIMING (readTiming timings 1)
      decoder_states.header_space decoder_states.header_space_tolerance = true)
    (hsp : ∀ k, k < 160 →
      MATCH_TIMING (readTiming timings (2 + 2 * k))
        decoder_states.data_mark decoder_states.data_mark_tolerance = true →
      MATCH_TIMING (readTiming timings (2 + 2 * k + 1))
        decoder_states.data_0_space decoder_states.data_0_space_tolerance = true ∨
      MATCH_TIMING (readTiming timings (2 + 2 * k + 1))
        decoder_states.data_1_space decoder_states.data_1_space_tolerance = true) :
    (decode_signal_to_tamabits timings buf).1 = true ∧
    ∀ k, k < 160 →
      (decode_signal_to_tamabits timings buf).2[k]? =
        if MATCH_TIMING (readTiming timings (2 + 2 * k))
            decoder_states.data_mark decoder_states.data_mark_tolerance = true then
          (if MATCH_TIMING (readTiming timings (2 + 2 * k + 1))
              decoder_states.data_0_space decoder_states.data_0_space_tolerance = true
            then some '0' else some '1')
        else buf[k]? := by
  have e : decode_signal_to_tamabits timings buf = decodeLoop timings 160 0 2 buf := by
    unfold decode_signal_to_tamabits
    rw [if_neg (by omega)]
    simp [hhm, hhs]
  obtain ⟨r1, _, r3, _⟩ := decodeLoop_true timings 160 0 2 buf (by omega) hsp
  rw [e]
  refine ⟨r1, ?_⟩
  intro k hk
  have := r3 k hk
  simpa using this

/-! ## Helper lemmas: C strings and the encoder -/

/-- Below `strlen` the buffer and its C string hold the same characters. -/
theorem cstr_getElem? (s : List Char) (i : Nat) (h : i < strlen s) :
    (cstr s)[i]? = some (readChar s i) := by
  have hp : cstr s <+: s := List.takeWhile_prefix _
  obtain ⟨r, hr⟩ := hp
  have hi : i < (cstr s).length := h
  have : s[i]? = (cstr s)[i]? := by
    conv_lhs => rw [← hr]
    exact List.getElem?_append_left hi
  unfold readChar
  rw [List.getD_eq_getElem?_getD, this, List.getElem?_eq_getElem hi]
  rfl

/-- A buffer without a terminator is its own C string. -/
theorem cstr_eq_self (s : List Char) (h : ∀ c ∈ s, c ≠ NUL) : cstr s = s := by
  unfold cstr
  rw [List.takeWhile_eq_self_iff]
  intro c hc
  simpa using h c hc

/-- The characters tested by the encoder loop are those of the C string. -/
theorem valid_chars_iff (s : List Char) (n : Nat) (hn : strlen s = n) :
    (∀ k, k < n → readChar s (0 + k) = '0' ∨ readChar s (0 + k) = '1') ↔
      ∀ c ∈ cstr s, c = '0' ∨ c = '1' := by
  constructor
  · intro h c hc
    obtain ⟨k, hk, hck⟩ := List.mem_iff_getElem.mp hc
    have hk2 : k < strlen s := hk
    have e := cstr_getElem? s k hk2
    rw [List.getElem?_eq_getElem hk, hck] at e
    have e2 : c = readChar s k := by simpa using e
    rw [e2]
    simpa using h k (by omega)
  · intro h k hk
    have hk2 : k < strlen s := by omega
    have e := cstr_getElem? s k hk2
    have hk3 : k < (cstr s).length := hk2
    rw [List.getElem?_eq_getElem hk3] at e
    have e2 : (cstr s)[k] = readChar s k := by simpa using e
    simp only [Nat.zero_add]
    rw [← e2]
    exact h _ (List.getElem_mem _)

/-- A string of characters `'0'`/`'1'` holds no terminator. -/
theorem no_NUL_of_bits (b : List Char) (hc : ∀ c ∈ b, c = '0' ∨ c = '1') :
    ∀ c ∈ b, c ≠ NUL := by
  intro c hcb
  rcases hc c hcb with h | h <;> rw [h] <;> decide

/-- The characters read from a string of 160 characters `'0'`/`'1'`. -/
theorem readChar_of_bits (b : List Char) (hb : b.length = 160)
    (hc : ∀ c ∈ b, c = '0' ∨ c = '1') :
    strlen b = 160 ∧
      ∀ k, k < 160 → readChar b (0 + k) = '0' ∨ readChar b (0 + k) = '1' := by
  have hself := cstr_eq_self b (no_NUL_of_bits b hc)
  have hs : strlen b = 160 := by unfold strlen; rw [hself, hb]
  refine ⟨hs, (valid_chars_iff b 160 hs).mpr ?_⟩
  rw [hself]
  exact hc

/-- The loop accepts exactly when each of the characters it reads is `'0'` or
`'1'`. -/
theorem encodeLoop_verdict (b : List Char) :
    ∀ (n i t : Nat) (arr : List Nat),
      (encodeLoop b n i t arr).1 = true ↔
        ∀ k, k < n → readChar b (i + k) = '0' ∨ readChar b (i + k) = '1' := by
  intro n
  induction n with
  | zero =>
    intro i t arr
    simp [encodeLoop]
  | succ n ih =>
    intro i t arr
    have shift : (∀ k, k < n → readChar b (i + 1 + k) = '0' ∨ readChar b (i + 1 + k) = '1') ↔
        ∀ k, k < n → readChar b (i + (k + 1)) = '0' ∨ readChar b (i + (k + 1)) = '1' := by
      constructor
      · intro h k hk
        have e : i + (k + 1) = i + 1 + k := by omega
        rw [e]
        exact h k hk
      · intro h k hk
        have e : i + 1 + k = i + (k + 1) := by omega
        rw [e]
        exact h k hk
    have split : (∀ k, k < n + 1 → readChar b (i + k) = '0' ∨ readChar b (i + k) = '1') ↔
        (readChar b i = '0' ∨ readChar b i = '1') ∧
          ∀ k, k < n → readChar b (i + (k + 1)) = '0' ∨ readChar b (i + (k + 1)) = '1' := by
      constructor
      · intro h
        exact ⟨by simpa using h 0 (by omega), fun k hk => h (k + 1) (by omega)⟩
      · intro h k hk
        cases k with
        | zero => simpa using h.1
        | succ k => exact h.2 k (by omega)
    rw [split, ← shift]
    by_cases h0 : readChar b i = '0'
    · simp [encodeLoop, h0, ih]
    · by_cases h1 : readChar b i = '1'
      · simp [encodeLoop, h1, ih]
      · simp [encodeLoop, h0, h1]

/-- On characters that are all `'0'` or `'1'` the loop keeps the length of the
array, leaves the entries below `t` alone, writes a mark and a space for each
character and the ending mark after them. -/
theorem encodeLoop_layout (b : List Char) :
    ∀ (n i t : Nat) (arr : List Nat),
      t + 2 * n < arr.length →
      (∀ k, k < n → readChar b (i + k) = '0' ∨ readChar b (i + k) = '1') →
      (encodeLoop b n i t arr).2.length = arr.length ∧
      (∀ j, j < t → (encodeLoop b n i t arr).2[j]? = arr[j]?) ∧
      (∀ k, k < n →
        (encodeLoop b n i t arr).2[t + 2 * k]? = some decoder_states.data_mark ∧
        (encodeLoop b n i t arr).2[t + 2 * k + 1]? =
          some (if readChar b (i + k) = '0' then decoder_states.data_0_space
            else decoder_states.data_1_space)) ∧
      (encodeLoop b n i t arr).2[t + 2 * n]? = some decoder_states.ending_mark := by
  intro n
  induction n with
  | zero =>
    intro i t arr hlen _
    refine ⟨by simp [encodeLoop], ?_, by simp, ?_⟩
    · intro j hj
      simp only [encodeLoop]
      exact List.getElem?_set_ne (by omega)
    · simp only [encodeLoop, Nat.mul_zero, Nat.add_zero]
      exact List.getElem?_set_self (by omega)
  | succ n ih =>
    intro i t arr hlen hv
    have hrest : ∀ k, k < n → readChar b (i + 1 + k) = '0' ∨ readChar b (i + 1 + k) = '1' := by
      intro k hk
      have e : i + 1 + k = i + (k + 1) := by omega
      rw [e]
      exact hv (k + 1) (by omega)
    have h0 : readChar b i = '0' ∨ readChar b i = '1' := by simpa using hv 0 (by omega)
    have hstep : ∃ arr1 : List Nat,
        encodeLoop b (n + 1) i t arr = encodeLoop b n (i + 1) (t + 2) arr1 ∧
        arr1.length = arr.length ∧ (∀ j, j < t → arr1[j]? = arr[j]?) ∧
        arr1[t]? = some decoder_states.data_mark ∧
        arr1[t + 1]? = some (if readChar b i = '0' then decoder_states.data_0_space
          else decoder_states.data_1_space) := by
      have key : ∀ v : Nat,
          (((arr.set t decoder_states.data_mark).set (t + 1) v).length = arr.length ∧
          (∀ j, j < t → ((arr.set t decoder_states.data_mark).set (t + 1) v)[j]? = arr[j]?) ∧
          ((arr.set t decoder_states.data_mark).set (t + 1) v)[t]? =
            some decoder_states.data_mark ∧
          ((arr.set t decoder_states.data_mark).set (t + 1) v)[t + 1]? = some v) := by
        intro v
        refine ⟨by simp, ?_, ?_, ?_⟩
        · intro j hj
          rw [List.getElem?_set_ne (by omega), List.getElem?_set_ne (by omega)]
        · rw [List.getElem?_set_ne (by omega)]
          exact List.getElem?_set_self (by omega)
        · exact List.getElem?_set_self (by simp; omega)
      rcases h0 with h0 | h0
      · obtain ⟨k1, k2, k3, k4⟩ := key decoder_states.data_0_space
        exact ⟨_, by simp [encodeLoop, h0], k1, k2, k3, by simp [h0, k4]⟩
      · have hne : readChar b i ≠ '0' := by rw [h0]; decide
        obtain ⟨k1, k2, k3, k4⟩ := key decoder_states.data_1_space
        exact ⟨_, by simp [encodeLoop, h0], k1, k2, k3, by simp [h0, k4]⟩
    obtain ⟨arr1, heq, hl1, hlow, hm, hs⟩ := hstep
    obtain ⟨r1, r2, r3, r4⟩ := ih (i + 1) (t + 2) arr1 (by omega) hrest
    rw [heq]
    refine ⟨by omega, ?_, ?_, ?_⟩
    · intro j hj
      rw [r2 j (by omega), hlow j hj]
    · intro k hk
      cases k with
      | zero =>
        simp only [Nat.mul_zero, Nat.add_zero]
        rw [r2 t (by omega), r2 (t + 1) (by omega)]
        exact ⟨hm, hs⟩
      | succ k =>
        have e1 : t + 2 * (k + 1) = t + 2 + 2 * k := by omega
        have e2 : i + (k + 1) = i + 1 + k := by omega
        rw [e1, e2]
        exact r3 k (by omega)
    · have e : t + 2 * (n + 1) = t + 2 + 2 * n := by omega
      rw [e]
      exact r4

/-- The verdict of the encoder in terms of the C string it is given. -/
theorem tamabits_to_timings_verdict (s : List Char) (arr : List Nat) :
    (tamabits_to_timings s arr).1 = true ↔
      (cstr s).length = 160 ∧ ∀ c ∈ cstr s, c = '0' ∨ c = '1' := by
  unfold tamabits_to_timings
  by_cases hs : strlen s = 160
  · rw [if_neg (by simp [hs]), encodeLoop_verdict, valid_chars_iff s 160 hs]
    exact ⟨fun h => ⟨hs, h⟩, fun h => h.2⟩
  · rw [if_pos hs]
    constructor
    · intro h
      exact absurd h (by simp)
    · intro h
      exact absurd h.1 hs

/-- The encoder on a C string of 160 characters `'0'`/`'1'` and an array of
323 entries: it accepts and fills the array with the header, a mark and a
space for each character, and the ending mark. -/
theorem tamabits_to_timings_ok (s : List Char) (arr : List Nat)
    (hs : strlen s = 160)
    (hv : ∀ k, k < 160 → readChar s (0 + k) = '0' ∨ readChar s (0 + k) = '1')
    (harr : arr.length = 323) :
    (tamabits_to_timings s arr).1 = true ∧
    (tamabits_to_timings s arr).2.length = 323 ∧
    (tamabits_to_timings s arr).2[0]? = some decoder_states.header_mark ∧
    (tamabits_to_timings s arr).2[1]? = some decoder_states.header_space ∧
    (∀ k, k < 160 →
      (tamabits_to_timings s arr).2[2 + 2 * k]? = some decoder_states.data_mark ∧
      (tamabits_to_timings s arr).2[2 + 2 * k + 1]? =
        some (if readChar s (0 + k) = '0' then decoder_states.data_0_space
          else decoder_states.data_1_space)) ∧
    (tamabits_to_timings s arr).2[322]? = some decoder_states.ending_mark := by
  have e : tamabits_to_timings s arr = encodeLoop s 160 0 2
      ((arr.set 0 decoder_states.header_mark).set 1 decoder_states.header_space) := by
    unfold tamabits_to_timings
    rw [if_neg (by simp [hs])]
  rw [e]
  generalize harr0 :
    (arr.set 0 decoder_states.header_mark).set 1 decoder_states.header_space = arr0
  have hl : arr0.length = 323 := by rw [← harr0]; simp [harr]
  have h0 : arr0[0]? = some decoder_states.header_mark := by
    rw [← harr0, List.getElem?_set_ne (by omega)]
    exact List.getElem?_set_self (by omega)
  have h1 : arr0[1]? = some decoder_states.header_space := by
    rw [← harr0]
    exact List.getElem?_set_self (by simp; omega)
  obtain ⟨r1, r2, r3, r4⟩ := encodeLoop_layout s 160 0 2 arr0 (by omega) hv
  refine ⟨(encodeLoop_verdict s 160 0 2 arr0).mpr hv, by omega, ?_, ?_, r3, r4⟩
  · rw [r2 0 (by omega)]
    exact h0
  · rw [r2 1 (by omega)]
    exact h1

/-- Decoding what the encoder produced gives back the C string, whatever the
output buffer and the array held before. -/
theorem decode_encoded (s : List Char) (arr : List Nat) (buf : List Char)
    (hs : strlen s = 160)
    (hv : ∀ k, k < 160 → readChar s (0 + k) = '0' ∨ readChar s (0 + k) = '1')
    (harr : arr.length = 323) (hbuf : buf.length = 160) :
    decode_signal_to_tamabits (tamabits_to_timings s arr).2 buf = (true, cstr s) := by
  obtain ⟨_, e2, e3, e4, e5, _⟩ := tamabits_to_timings_ok s arr hs hv harr
  generalize (tamabits_to_timings s arr).2 = T at *
  have hmark : ∀ k, k < 160 →
      MATCH_TIMING (readTiming T (2 + 2 * k))
        decoder_states.data_mark decoder_states.data_mark_tolerance = true := by
    intro k hk
    rw [readTiming_of_getElem? _ _ _ (e5 k hk).1]
    decide
  have hzero : ∀ k, k < 160 → readChar s (0 + k) = '0' →
      MATCH_TIMING (readTiming T (2 + 2 * k + 1))
        decoder_states.data_0_space decoder_states.data_0_space_tolerance = true := by
    intro k hk hc
    rw [readTiming_of_getElem? _ _ _ (e5 k hk).2, if_pos hc]
    decide
  have hone : ∀ k, k < 160 → readChar s (0 + k) = '1' →
      MATCH_TIMING (readTiming T (2 + 2 * k + 1))
        decoder_states.data_0_space decoder_states.data_0_space_tolerance = false ∧
      MATCH_TIMING (readTiming T (2 + 2 * k + 1))
        decoder_states.data_1_space decoder_states.data_1_space_tolerance = true := by
    intro k hk hc
    have hne : readChar s (0 + k) ≠ '0' := by rw [hc]; decide
    rw [readTiming_of_getElem? _ _ _ (e5 k hk).2, if_neg hne]
    decide
  obtain ⟨d1, d2⟩ := decode_accepts T buf (by omega) hbuf
    (by rw [readTiming_of_getElem? _ _ _ e3]; decide)
    (by rw [readTiming_of_getElem? _ _ _ e4]; decide)
    (by
      intro k hk _
      rcases hv k hk with hc | hc
      · exact Or.inl (hzero k hk hc)
      · exact Or.inr (hone k hk hc).2)
  have hlen := decode_length T buf
  generalize decode_signal_to_tamabits T buf = r at *
  obtain ⟨verdict, out⟩ := r
  simp only at d1 d2 hlen
  subst d1
  congr 1
  apply List.ext_getElem?
  intro k
  by_cases hk : k < 160
  · rw [d2 k hk, if_pos (hmark k hk), cstr_getElem? s k (by omega)]
    rcases hv k hk with hc | hc
    · rw [if_pos (hzero k hk hc)]
      simp only [Nat.zero_add] at hc
      rw [hc]
    · rw [if_neg (by rw [(hone k hk hc).1]; decide)]
      simp only [Nat.zero_add] at hc
      rw [hc]
  · have hc : (cstr s).length = 160 := hs
    rw [List.getElem?_eq_none (by omega), List.getElem?_eq_none (by omega)]

/-! ## Helper lemmas: the test signals and the callback -/

/-- The durations of `zeroSignal`. -/
theorem zeroSignal_reads :
    zeroSignal.length = 323 ∧ readTiming zeroSignal 0 = 9600 ∧
    readTiming zeroSignal 1 = 5000 ∧
    ∀ k, k < 160 → readTiming zeroSignal (2 + 2 * k) = 550 ∧
      readTiming zeroSignal (3 + 2 * k) = 600 := by
  set_option maxRecDepth 100000 in decide

/-- The decoder on `zeroSignal`: it accepts and the buffer holds 160 zeros. -/
theorem decode_zeroSignal (buf : List Char) (hbuf : buf.length = 160) :
    decode_signal_to_tamabits zeroSignal buf = (true, List.replicate 160 '0') := by
  obtain ⟨h1, h2, h3, h4⟩ := zeroSignal_reads
  have e3 : ∀ i, 2 + 2 * i + 1 = 3 + 2 * i := by intro i; omega
  obtain ⟨d1, d2⟩ := decode_accepts zeroSignal buf (by omega) hbuf
    (by rw [h2]; decide) (by rw [h3]; decide)
    (by
      intro k hk _
      rw [e3 k, (h4 k hk).2]
      exact Or.inl (by decide))
  have hlen := decode_length zeroSignal buf
  generalize decode_signal_to_tamabits zeroSignal buf = r at *
  obtain ⟨verdict, out⟩ := r
  simp only at d1 d2 hlen
  subst d1
  congr 1
  apply List.ext_getElem?
  intro k
  rw [List.getElem?_replicate]
  by_cases hk : k < 160
  · rw [d2 k hk, e3 k, (h4 k hk).1, (h4 k hk).2, if_pos hk]
    rfl
  · rw [List.getElem?_eq_none (by omega), if_neg hk]

/-- The durations of `badMarkSignal`. -/
theorem badMarkSignal_reads :
    badMarkSignal.length = 323 ∧ readTiming badMarkSignal 0 = 9600 ∧
    readTiming badMarkSignal 1 = 5000 ∧ readTiming badMarkSignal 2 = 0 ∧
    ∀ k, k < 160 → readTiming badMarkSignal (2 + 2 * k) = (if k = 0 then 0 else 550) ∧
      readTiming badMarkSignal (2 + 2 * k + 1) = 600 := by
  set_option maxRecDepth 100000 in decide

/-- The decoder on `badMarkSignal`: it accepts, and byte 0 of the buffer is
the byte it held before the call. -/
theorem decode_badMarkSignal (buf : List Char) (hbuf : buf.length = 160) :
    (decode_signal_to_tamabits badMarkSignal buf).1 = true ∧
    (decode_signal_to_tamabits badMarkSignal buf).2[0]? = buf[0]? := by
  obtain ⟨h1, h2, h3, h4, h5⟩ := badMarkSignal_reads
  obtain ⟨d1, d2⟩ := decode_accepts badMarkSignal buf (by omega) hbuf
    (by rw [h2]; decide) (by rw [h3]; decide)
    (by
      intro k hk _
      rw [(h5 k hk).2]
      exact Or.inl (by decide))
  refine ⟨d1, ?_⟩
  have hm : ¬ MATCH_TIMING (readTiming badMarkSignal (2 + 2 * 0))
      decoder_states.data_mark decoder_states.data_mark_tolerance = true := by
    rw [show 2 + 2 * 0 = 2 from rfl, h4]
    decide
  rw [d2 0 (by omega), if_neg hm]

/-- What `signal_received_callback` does on a signal that decodes: it sets
`command_decoded` and makes three writes to the pipe, the last of which is six
bytes long, the five characters of the end marker and the terminator of the
literal. -/
theorem signal_received_callback_decoded (sig : List Nat) (stack : List Char)
    (st : AppState) (h : (decode_signal_to_tamabits sig stack).1 = true) :
    signal_received_callback sig stack st =
      (AppState.mk true st.timed_out,
        [Output.pipe_send ['[', 'P', 'I', 'C', 'O', ']'],
         Output.pipe_send ((decode_signal_to_tamabits sig stack).2.take 160),
         Output.pipe_send ['[', 'E', 'N', 'D', ']', NUL]]) := by
  unfold signal_received_callback
  simp only [h, if_true]
  rfl

/-! ## Round trip -/

/-- C1: for every 160-character string `b` over `'0'`/`'1'`, the encoder
accepts `b`, and the decoder applied to the 323 timings it produced returns
true and leaves exactly `b` in the output buffer, whatever the buffer (and the
timings array) held before. -/
theorem roundtrip (b : List Char) (arr : List Nat) (buf : List Char)
    (hb : b.length = 160) (hc : ∀ c ∈ b, c = '0' ∨ c = '1')
    (harr : arr.length = 323) (hbuf : buf.length = 160) :
    (tamabits_to_timings b arr).1 = true ∧
    (tamabits_to_timings b arr).2.length = 323 ∧
    decode_signal_to_tamabits (tamabits_to_timings b arr).2 buf = (true, b) := by
  obtain ⟨hs, hv⟩ := readChar_of_bits b hb hc
  obtain ⟨e1, e2, _⟩ := tamabits_to_timings_ok b arr hs hv harr
  refine ⟨e1, e2, ?_⟩
  rw [decode_encoded b arr buf hs hv harr hbuf, cstr_eq_self b (no_NUL_of_bits b hc)]

/-- Witness of `roundtrip`: the message of 160 zeros, an array of zeros and a
buffer of `'x'`. -/
theorem roundtrip_witness :
    (tamabits_to_timings (List.replicate 160 '0') (List.replicate 323 0)).1 = true ∧
    (tamabits_to_timings (List.replicate 160 '0') (List.replicate 323 0)).2.length = 323 ∧
    decode_signal_to_tamabits
      (tamabits_to_timings (List.replicate 160 '0') (List.replicate 323 0)).2
      (List.replicate 160 'x') = (true, List.replicate 160 '0') :=
  roundtrip (List.replicate 160 '0') (List.replicate 323 0) (List.replicate 160 'x')
    (List.length_replicate 160 '0') (fun _ h => Or.inl (List.eq_of_mem_replicate h))
    (List.length_replicate 323 0) (List.length_replicate 160 'x')

/-! ## Data marks that do not match -/

/-- C2 (the code at the failing input): `badMarkSignal` has 323 durations and
its duration at offset 2 (the data mark of bit 0) is 0, which does not match
the data mark, yet `decode_signal_to_tamabits` returns true on it. -/
theorem bad_data_mark_not_rejected :
    323 ≤ badMarkSignal.length ∧
    readTiming badMarkSignal (2 + 2 * 0) = 0 ∧
    MATCH_TIMING (readTiming badMarkSignal (2 + 2 * 0))
      decoder_states.data_mark decoder_states.data_mark_tolerance = false ∧
    (decode_signal_to_tamabits badMarkSignal (List.replicate 160 'x')).1 = true := by
  obtain ⟨h1, _, _, h4, _⟩ := badMarkSignal_reads
  refine ⟨by omega, h4, ?_, (decode_badMarkSignal _ (List.length_replicate 160 'x')).1⟩
  rw [show 2 + 2 * 0 = 2 from rfl, h4]
  decide

/-- C3 (the code at the failing input): on `badMarkSignal` the decoder
returns true with output byte 0 equal to `'x'` when the buffer held `'x'`
before, and equal to `'y'` when it held `'y'`: a byte that is neither `'0'`
nor `'1'` and that comes from the buffer, not from the signal. -/
theorem decoder_output_keeps_prior_byte :
    (decode_signal_to_tamabits badMarkSignal (List.replicate 160 'x')).1 = true ∧
    (decode_signal_to_tamabits badMarkSignal (List.replicate 160 'x')).2[0]? = some 'x' ∧
    (decode_signal_to_tamabits badMarkSignal (List.replicate 160 'y')).1 = true ∧
    (decode_signal_to_tamabits badMarkSignal (List.replicate 160 'y')).2[0]? = some 'y' := by
  obtain ⟨x1, x2⟩ := decode_badMarkSignal _ (List.length_replicate 160 'x')
  obtain ⟨y1, y2⟩ := decode_badMarkSignal _ (List.length_replicate 160 'y')
  exact ⟨x1, by rw [x2, List.getElem?_replicate]; rfl, y1,
    by rw [y2, List.getElem?_replicate]; rfl⟩

/-! ## Tolerant decoding -/

/-- C4: for every raw signal of at least 323 durations whose first duration
lies strictly inside 9600±2000, whose second lies strictly inside 5000±1500,
and in which, for every `i < 160`, the duration at `2 + 2 * i` lies strictly
inside 550±300 and the one at `3 + 2 * i` strictly inside 600±400 or strictly
inside 1500±500, the decoder returns true and output symbol `i` is `'0'` when
the duration at `3 + 2 * i` is inside 600±400 and `'1'` when it is inside
1500±500. -/
theorem tolerant_decoding (raw : List Nat) (buf : List Char)
    (hlen : 323 ≤ raw.length) (hbuf : buf.length = 160)
    (h0 : 9600 - 2000 < readTiming raw 0 ∧ readTiming raw 0 < 9600 + 2000)
    (h1 : 5000 - 1500 < readTiming raw 1 ∧ readTiming raw 1 < 5000 + 1500)
    (hd : ∀ i, i < 160 →
      (550 - 300 < readTiming raw (2 + 2 * i) ∧ readTiming raw (2 + 2 * i) < 550 + 300) ∧
      ((600 - 400 < readTiming raw (3 + 2 * i) ∧ readTiming raw (3 + 2 * i) < 600 + 400) ∨
       (1500 - 500 < readTiming raw (3 + 2 * i) ∧ readTiming raw (3 + 2 * i) < 1500 + 500))) :
    (decode_signal_to_tamabits raw buf).1 = true ∧
    ∀ i, i < 160 →
      ((600 - 400 < readTiming raw (3 + 2 * i) ∧ readTiming raw (3 + 2 * i) < 600 + 400) →
        (decode_signal_to_tamabits raw buf).2[i]? = some '0') ∧
      ((1500 - 500 < readTiming raw (3 + 2 * i) ∧ readTiming raw (3 + 2 * i) < 1500 + 500) →
        (decode_signal_to_tamabits raw buf).2[i]? = some '1') := by
  have e3 : ∀ i, 2 + 2 * i + 1 = 3 + 2 * i := by intro i; omega
  have hmark : ∀ k, k < 160 →
      MATCH_TIMING (readTiming raw (2 + 2 * k))
        decoder_states.data_mark decoder_states.data_mark_tolerance = true := by
    intro k hk
    exact (MATCH_TIMING_nowrap _ 550 300 (by decide) (by decide)).mpr (hd k hk).1
  have hz : ∀ k, MATCH_TIMING (readTiming raw (2 + 2 * k + 1))
        decoder_states.data_0_space decoder_states.data_0_space_tolerance = true ↔
      (600 - 400 < readTiming raw (3 + 2 * k) ∧ readTiming raw (3 + 2 * k) < 600 + 400) := by
    intro k
    rw [e3 k]
    exact MATCH_TIMING_nowrap _ 600 400 (by decide) (by decide)
  have ho : ∀ k, MATCH_TIMING (readTiming raw (2 + 2 * k + 1))
        decoder_states.data_1_space decoder_states.data_1_space_tolerance = true ↔
      (1500 - 500 < readTiming raw (3 + 2 * k) ∧ readTiming raw (3 + 2 * k) < 1500 + 500) := by
    intro k
    rw [e3 k]
    exact MATCH_TIMING_nowrap _ 1500 500 (by decide) (by decide)
  obtain ⟨d1, d2⟩ := decode_accepts raw buf hlen hbuf
    ((MATCH_TIMING_nowrap _ 9600 2000 (by decide) (by decide)).mpr h0)
    ((MATCH_TIMING_nowrap _ 5000 1500 (by decide) (by decide)).mpr h1)
    (by
      intro k hk _
      rcases (hd k hk).2 with h | h
      · exact Or.inl ((hz k).mpr h)
      · exact Or.inr ((ho k).mpr h))
  refine ⟨d1, ?_⟩
  intro i hi
  rw [d2 i hi, if_pos (hmark i hi)]
  constructor
  · intro h
    rw [if_pos ((hz i).mpr h)]
  · intro h
    have hnz : ¬ MATCH_TIMING (readTiming raw (2 + 2 * i + 1))
        decoder_states.data_0_space decoder_states.data_0_space_tolerance = true := by
      rw [hz i]
      omega
    rw [if_neg hnz]

/-- Witness of `tolerant_decoding` on `zeroSignal`, with a buffer of `'x'`. -/
theorem tolerant_decoding_witness :
    (decode_signal_to_tamabits zeroSignal (List.replicate 160 'x')).1 = true ∧
    ∀ i, i < 160 →
      ((600 - 400 < readTiming zeroSignal (3 + 2 * i) ∧
          readTiming zeroSignal (3 + 2 * i) < 600 + 400) →
        (decode_signal_to_tamabits zeroSignal (List.replicate 160 'x')).2[i]? = some '0') ∧
      ((1500 - 500 < readTiming zeroSignal (3 + 2 * i) ∧
          readTiming zeroSignal (3 + 2 * i) < 1500 + 500) →
        (decode_signal_to_tamabits zeroSignal (List.replicate 160 'x')).2[i]? = some '1') :=
  tolerant_decoding zeroSignal (List.replicate 160 'x')
    (by rw [zeroSignal_reads.1]) (List.length_replicate 160 'x')
    (by rw [zeroSignal_reads.2.1]; decide) (by rw [zeroSignal_reads.2.2.1]; decide)
    (fun i hi => by
      rw [(zeroSignal_reads.2.2.2 i hi).1, (zeroSignal_reads.2.2.2 i hi).2]
      decide)

/-! ## Frames and the listen session -/

/-- C5 (the code at the failing input): on `zeroSignal`, which decodes,
`signal_received_callback` writes `[PICO]`, the 160 decoded bytes, and then
the six bytes `[END]` followed by a zero byte: 172 bytes, not 171. -/
theorem success_frame_ends_with_terminator :
    (signal_received_callback zeroSignal (List.replicate 160 'x') (AppState.mk false false)).2 =
      [Output.pipe_send ['[', 'P', 'I', 'C', 'O', ']'],
       Output.pipe_send (List.replicate 160 '0'),
       Output.pipe_send ['[', 'E', 'N', 'D', ']', NUL]] ∧
    (pipeBytes (signal_received_callback zeroSignal (List.replicate 160 'x')
      (AppState.mk false false)).2).length = 172 ∧
    (pipeBytes (signal_received_callback zeroSignal (List.replicate 160 'x')
      (AppState.mk false false)).2)[171]? = some NUL := by
  have hd := decode_zeroSignal (List.replicate 160 'x') (List.length_replicate 160 'x')
  have hc := signal_received_callback_decoded zeroSignal (List.replicate 160 'x')
    (AppState.mk false false) (by rw [hd])
  rw [hd] at hc
  have ht : List.take 160 (List.replicate 160 '0') = List.replicate 160 '0' :=
    List.take_of_length_le (by rw [List.length_replicate])
  rw [hc]
  simp only [ht]
  have hz : (List.replicate 160 '0').length = 160 := List.length_replicate 160 '0'
  generalize List.replicate 160 '0' = z at hz
  refine ⟨trivial, ?_, ?_⟩
  · simp [pipeBytes, hz]
  · simp only [pipeBytes, List.append_nil]
    rw [← List.append_assoc, List.getElem?_append_right (by simp [hz])]
    simp [hz]

/-- C6 (the code at the failing input): in the run where a decodable signal
arrives, the timer fires, the loop tests its condition and `listen` goes on
after the loop, two frames are emitted; and in the run where the timer fires
first (so `timed_out` is already set) the callback on a decodable signal
still emits its frame. -/
theorem session_emits_two_frames :
    framesEmitted (Session.start.run
      [Event.signal zeroSignal (List.replicate 160 'x'), Event.timer,
       Event.poll false, Event.leave]).out = 2 ∧
    (Session.start.run [Event.timer]).app_state.timed_out = true ∧
    framesEmitted (Session.start.run [Event.timer]).out = 0 ∧
    framesEmitted (Session.start.run
      [Event.timer, Event.signal zeroSignal (List.replicate 160 'x')]).out = 1 := by
  have hd := decode_zeroSignal (List.replicate 160 'x') (List.length_replicate 160 'x')
  have hc : ∀ st, signal_received_callback zeroSignal (List.replicate 160 'x') st =
      (AppState.mk true st.timed_out,
        [Output.pipe_send ['[', 'P', 'I', 'C', 'O', ']'],
         Output.pipe_send (List.replicate 160 '0'),
         Output.pipe_send ['[', 'E', 'N', 'D', ']', NUL]]) := by
    intro st
    have h := signal_received_callback_decoded zeroSignal (List.replicate 160 'x') st
      (by rw [hd])
    rw [hd] at h
    rw [h, List.take_of_length_le (by rw [List.length_replicate])]
  have hP : opensFrame (Output.pipe_send ['[', 'P', 'I', 'C', 'O', ']']) = true := by decide
  have hZ : opensFrame (Output.pipe_send (List.replicate 160 '0')) = false := by
    set_option maxRecDepth 100000 in decide
  have hE : opensFrame (Output.pipe_send ['[', 'E', 'N', 'D', ']', NUL]) = false := by decide
  have hT : opensFrame (Output.printf "[PICO]timed out[END]".toList) = true := by decide
  generalize List.replicate 160 '0' = z at hc hZ
  generalize List.replicate 160 'x' = stk at hc
  refine ⟨?_, ?_, ?_, ?_⟩
  · simp [Session.run, Session.step, Session.start, hc, timed_out_callback, listen_waits,
      listen_after_loop, framesEmitted, List.countP_cons, hP, hZ, hE]
    decide
  · simp [Session.run, Session.step, Session.start, timed_out_callback]
  · simp [Session.run, Session.step, Session.start, framesEmitted]
  · simp [Session.run, Session.step, Session.start, hc, timed_out_callback, framesEmitted,
      List.countP_cons, hP, hZ, hE]

/-! ## The tolerance matcher -/

/-- C7 (as stated, refuted): with observed 0, expected 0 and tolerance 1 the
exact bounds give -1 < 0 < 1, yet the unsigned lower bound wraps to
4294967295 and the macro is false. -/
theorem MATCH_TIMING_exact_bounds_fail :
    ¬ (∀ x v d : Nat, x < UINT32_MOD → v < UINT32_MOD → d < UINT32_MOD →
        (MATCH_TIMING x v d = true ↔ (v : Int) - (d : Int) < (x : Int) ∧ (x : Int) < (v : Int) + (d : Int))) := by
  intro h
  have h0 := (h 0 0 1 (by decide) (by decide) (by decide)).mpr (by decide)
  revert h0
  decide

/-- C7 (amended): when the tolerance does not exceed the expected value and
their sum fits in 32 bits, `MATCH_TIMING` is true exactly when the observed
value lies strictly between the exact integers `expected - tolerance` and
`expected + tolerance`. -/
theorem MATCH_TIMING_iff_exact_bounds (x v d : Nat) (h1 : d ≤ v) (h2 : v + d < UINT32_MOD) :
    MATCH_TIMING x v d = true ↔
      (v : Int) - (d : Int) < (x : Int) ∧ (x : Int) < (v : Int) + (d : Int) := by
  rw [MATCH_TIMING_nowrap x v d h1 h2]
  omega

/-- Witness of `MATCH_TIMING_iff_exact_bounds` on the data-mark window. -/
theorem MATCH_TIMING_iff_exact_bounds_witness :
    (300 ≤ 550 ∧ 550 + 300 < UINT32_MOD) ∧
    (MATCH_TIMING 551 550 300 = true ↔
      ((550 : Nat) : Int) - ((300 : Nat) : Int) < ((551 : Nat) : Int) ∧
        ((551 : Nat) : Int) < ((550 : Nat) : Int) + ((300 : Nat) : Int)) :=
  ⟨by decide, MATCH_TIMING_iff_exact_bounds 551 550 300 (by decide) (by decide)⟩

/-- C8: for each of the six pairs of `decoder_states`, `MATCH_TIMING` is false
at `expected - tolerance` and at `expected + tolerance`, and true at
`expected - tolerance + 1` and at `expected + tolerance - 1`. -/
theorem MATCH_TIMING_strict_boundaries :
    timingProfile =
      [(9600, 2000), (5000, 1500), (550, 300), (600, 400), (1500, 500), (1100, 250)] ∧
    ∀ p ∈ timingProfile,
      MATCH_TIMING (p.1 - p.2) p.1 p.2 = false ∧
      MATCH_TIMING (p.1 + p.2) p.1 p.2 = false ∧
      MATCH_TIMING (p.1 - p.2 + 1) p.1 p.2 = true ∧
      MATCH_TIMING (p.1 + p.2 - 1) p.1 p.2 = true := by
  decide

/-! ## The encoder -/

/-- C9: `tamabits_to_timings` returns true if and only if the C string it is
given has length exactly 160 and every character of it is `'0'` or `'1'` (for
a buffer without terminator the C string is the whole buffer); in particular
a 159-character input and a 160-character input containing `'2'` are both
rejected. -/
theorem encoder_acceptance (s : List Char) (arr : List Nat) :
    ((tamabits_to_timings s arr).1 = true ↔
      (cstr s).length = 160 ∧ ∀ c ∈ cstr s, c = '0' ∨ c = '1') ∧
    ((∀ c ∈ s, c ≠ NUL) →
      ((tamabits_to_timings s arr).1 = true ↔
        s.length = 160 ∧ ∀ c ∈ s, c = '0' ∨ c = '1')) ∧
    (s.length = 159 → (tamabits_to_timings s arr).1 = false) ∧
    (s.length = 160 → '2' ∈ s → (tamabits_to_timings s arr).1 = false) := by
  have hv := tamabits_to_timings_verdict s arr
  have hp : cstr s <+: s := List.takeWhile_prefix _
  refine ⟨hv, ?_, ?_, ?_⟩
  · intro hn
    rw [hv, cstr_eq_self s hn]
  · intro hl
    have hle := hp.length_le
    cases hr : (tamabits_to_timings s arr).1 with
    | false => rfl
    | true =>
      have := (hv.mp hr).1
      omega
  · intro hl h2
    cases hr : (tamabits_to_timings s arr).1 with
    | false => rfl
    | true =>
      obtain ⟨h160, hall⟩ := hv.mp hr
      have hself : cstr s = s := hp.eq_of_length (by omega)
      rw [hself] at hall
      rcases hall '2' h2 with h | h
      · exact absurd h (by decide)
      · exact absurd h (by decide)

/-- Witness of `encoder_acceptance`: 159 zeros are rejected, and 159 zeros
followed by `'2'` are rejected. -/
theorem encoder_acceptance_witness :
    (tamabits_to_timings (List.replicate 159 '0') (List.replicate 323 0)).1 = false ∧
    (tamabits_to_timings (List.replicate 159 '0' ++ ['2']) (List.replicate 323 0)).1 = false :=
  ⟨(encoder_acceptance (List.replicate 159 '0') (List.replicate 323 0)).2.2.1
      (List.length_replicate 159 '0'),
   (encoder_acceptance (List.replicate 159 '0' ++ ['2']) (List.replicate 323 0)).2.2.2
      (by rw [List.length_append, List.length_replicate]; rfl)
      (List.mem_append_right _ (List.mem_singleton.mpr rfl))⟩

/-- C10: for every 160-character string `b` over `'0'`/`'1'`,
`tamabits_to_timings` accepts and writes all 323 entries of the timings array
(the result does not depend on what the array held): entry 0 is 9600, entry 1
is 5000, for every `i < 160` entry `2 + 2 * i` is 550 and entry `3 + 2 * i`
is 600 if `b[i]` is `'0'` and 1500 if `b[i]` is `'1'`, and entry 322 is
1100. -/
theorem encoder_layout (b : List Char) (arr : List Nat)
    (hb : b.length = 160) (hc : ∀ c ∈ b, c = '0' ∨ c = '1') (harr : arr.length = 323) :
    (tamabits_to_timings b arr).1 = true ∧
    (tamabits_to_timings b arr).2.length = 323 ∧
    (tamabits_to_timings b arr).2[0]? = some 9600 ∧
    (tamabits_to_timings b arr).2[1]? = some 5000 ∧
    (∀ i, i < 160 →
      (tamabits_to_timings b arr).2[2 + 2 * i]? = some 550 ∧
      (readChar b i = '0' → (tamabits_to_timings b arr).2[3 + 2 * i]? = some 600) ∧
      (readChar b i = '1' → (tamabits_to_timings b arr).2[3 + 2 * i]? = some 1500)) ∧
    (tamabits_to_timings b arr).2[322]? = some 1100 ∧
    ∀ arr2 : List Nat, arr2.length = 323 →
      (tamabits_to_timings b arr2).2 = (tamabits_to_timings b arr).2 := by
  obtain ⟨hs, hv⟩ := readChar_of_bits b hb hc
  obtain ⟨e1, e2, e3, e4, e5, e6⟩ := tamabits_to_timings_ok b arr hs hv harr
  refine ⟨e1, e2, e3, e4, ?_, e6, ?_⟩
  · intro i hi
    obtain ⟨m, sp⟩ := e5 i hi
    have e : 3 + 2 * i = 2 + 2 * i + 1 := by omega
    simp only [Nat.zero_add] at sp
    refine ⟨m, ?_, ?_⟩
    · intro h0
      rw [e, sp, if_pos h0]
      rfl
    · intro h1
      have hne : readChar b i ≠ '0' := by rw [h1]; decide
      rw [e, sp, if_neg hne]
      rfl
  · intro arr2 harr2
    obtain ⟨_, f2, f3, f4, f5, f6⟩ := tamabits_to_timings_ok b arr2 hs hv harr2
    apply List.ext_getElem?
    intro j
    by_cases hj : j < 323
    · have cover : j = 0 ∨ j = 1 ∨ j = 322 ∨
          ∃ k, k < 160 ∧ (j = 2 + 2 * k ∨ j = 2 + 2 * k + 1) := by
        by_cases h0 : j = 0
        · exact Or.inl h0
        · by_cases h1 : j = 1
          · exact Or.inr (Or.inl h1)
          · by_cases h2 : j = 322
            · exact Or.inr (Or.inr (Or.inl h2))
            · exact Or.inr (Or.inr (Or.inr ⟨(j - 2) / 2, by omega, by omega⟩))
      rcases cover with h | h | h | ⟨k, hk, h | h⟩
      · rw [h, e3, f3]
      · rw [h, e4, f4]
      · rw [h, e6, f6]
      · rw [h, (e5 k hk).1, (f5 k hk).1]
      · rw [h, (e5 k hk).2, (f5 k hk).2]
    · rw [List.getElem?_eq_none (by omega), List.getElem?_eq_none (by omega)]

/-- Witness of `encoder_layout`: the message of 160 zeros and an array of
zeros. -/
theorem encoder_layout_witness :
    (tamabits_to_timings (List.replicate 160 '0') (List.replicate 323 0)).1 = true ∧
    (tamabits_to_timings (List.replicate 160 '0') (List.replicate 323 0)).2.length = 323 ∧
    (tamabits_to_timings (List.replicate 160 '0') (List.replicate 323 0)).2[0]? = some 9600 ∧
    (tamabits_to_timings (List.replicate 160 '0') (List.replicate 323 0)).2[1]? = some 5000 ∧
    (∀ i, i < 160 →
      (tamabits_to_timings (List.replicate 160 '0') (List.replicate 323 0)).2[2 + 2 * i]? =
        some 550 ∧
      (readChar (List.replicate 160 '0') i = '0' →
        (tamabits_to_timings (List.replicate 160 '0') (List.replicate 323 0)).2[3 + 2 * i]? =
          some 600) ∧
      (readChar (List.replicate 160 '0') i = '1' →
        (tamabits_to_timings (List.replicate 160 '0') (List.replicate 323 0)).2[3 + 2 * i]? =
          some 1500)) ∧
    (tamabits_to_timings (List.replicate 160 '0') (List.replicate 323 0)).2[322]? = some 1100 ∧
    ∀ arr2 : List Nat, arr2.length = 323 →
      (tamabits_to_timings (List.replicate 160 '0') arr2).2 =
        (tamabits_to_timings (List.replicate 160 '0') (List.replicate 323 0)).2 :=
  encoder_layout (List.replicate 160 '0') (List.replicate 323 0)
    (List.length_replicate 160 '0') (fun _ h => Or.inl (List.eq_of_mem_replicate h))
    (List.length_replicate 323 0)

/-! ## Helper lemmas: reads, rejection and congruence of the decoder loop -/

/-- The traced loop computes what the loop computes. -/
theorem decodeLoopTraced_fst (timings : List Nat) :
    ∀ (n data_bit timing : Nat) (buf : List Char) (reads : List Nat),
      (decodeLoopTraced timings n data_bit timing buf reads).1 =
        decodeLoop timings n data_bit timing buf := by
  intro n
  induction n with
  | zero => intro d t buf reads; rfl
  | succ n ih =>
    intro d t buf reads
    unfold decodeLoopTraced decodeLoop
    split
    · split
      · exact ih _ _ _ _
      · split
        · exact ih _ _ _ _
        · rfl
    · exact ih _ _ _ _

/-- Every index the traced loop adds to its reads lies in the range of the
iterations that remain. -/
theorem decodeLoopTraced_reads (timings : List Nat) :
    ∀ (n data_bit timing : Nat) (buf : List Char) (reads : List Nat) (i : Nat),
      i ∈ (decodeLoopTraced timings n data_bit timing buf reads).2 →
        i ∈ reads ∨ (timing ≤ i ∧ i < timing + 2 * n) := by
  intro n
  induction n with
  | zero =>
    intro d t buf reads i hi
    exact Or.inl hi
  | succ n ih =>
    intro d t buf reads i hi
    have widen : ∀ extra : List Nat, (∀ j ∈ extra, j = t ∨ j = t + 1) →
        (i ∈ reads ++ extra ∨ (t + 2 ≤ i ∧ i < t + 2 + 2 * n)) →
        i ∈ reads ∨ (t ≤ i ∧ i < t + 2 * (n + 1)) := by
      intro extra hex h
      rcases h with h | h
      · rcases List.mem_append.mp h with h | h
        · exact Or.inl h
        · rcases hex i h with h | h <;> exact Or.inr (by omega)
      · exact Or.inr (by omega)
    unfold decodeLoopTraced at hi
    split at hi
    · split at hi
      · exact widen [t, t + 1] (by simp) (ih _ _ _ _ _ hi)
      · split at hi
        · exact widen [t, t + 1, t + 1] (by simp) (ih _ _ _ _ _ hi)
        · exact widen [t, t + 1, t + 1] (by simp) (Or.inl hi)
    · exact widen [t] (by simp) (ih _ _ _ _ _ hi)

/-- The traced decoder computes what the decoder computes. -/
theorem decode_traced_fst (timings : List Nat) (buf : List Char) :
    (decode_signal_to_tamabits_traced timings buf).1 =
      decode_signal_to_tamabits timings buf := by
  unfold decode_signal_to_tamabits_traced decode_signal_to_tamabits
  by_cases hl : timings.length < 323
  · rw [if_pos hl, if_pos hl]
  · rw [if_neg hl, if_neg hl]
    by_cases h0 : MATCH_TIMING (readTiming timings 0)
        decoder_states.header_mark decoder_states.header_mark_tolerance = true
    · by_cases h1 : MATCH_TIMING (readTiming timings 1)
          decoder_states.header_space decoder_states.header_space_tolerance = true
      · simp only [h0, h1, Bool.not_true, Bool.and_self, Bool.false_eq_true, if_false]
        exact decodeLoopTraced_fst timings 160 0 2 buf [0, 1]
      · simp [h0, h1]
    · simp [h0]

/-- The loop rejects when some remaining iteration has a matching mark and a
space in neither window. -/
theorem decodeLoop_false (timings : List Nat) :
    ∀ (n data_bit timing : Nat) (buf : List Char),
      (∃ k, k < n ∧
        MATCH_TIMING (readTiming timings (timing + 2 * k))
          decoder_states.data_mark decoder_states.data_mark_tolerance = true ∧
        MATCH_TIMING (readTiming timings (timing + 2 * k + 1))
          decoder_states.data_0_space decoder_states.data_0_space_tolerance = false ∧
        MATCH_TIMING (readTiming timings (timing + 2 * k + 1))
          decoder_states.data_1_space decoder_states.data_1_space_tolerance = false) →
      (decodeLoop timings n data_bit timing buf).1 = false := by
  intro n
  induction n with
  | zero =>
    intro d t buf h
    obtain ⟨k, hk, _⟩ := h
    omega
  | succ n ih =>
    intro d t buf h
    obtain ⟨k, hk, hm, h0, h1⟩ := h
    cases k with
    | zero =>
      simp only [Nat.mul_zero, Nat.add_zero] at hm h0 h1
      simp [decodeLoop, hm, h0, h1]
    | succ k =>
      have e : t + 2 * (k + 1) = t + 2 + 2 * k := by omega
      rw [e] at hm h0 h1
      have hrest := fun d1 buf1 => ih d1 (t + 2) buf1 ⟨k, by omega, hm, h0, h1⟩
      unfold decodeLoop
      split
      · split
        · exact hrest _ _
        · split
          · exact hrest _ _
          · rfl
      · exact hrest _ _

/-- The loop only depends on the durations in the range of its iterations. -/
theorem decodeLoop_congr (a b : List Nat) :
    ∀ (n data_bit timing : Nat) (buf : List Char),
      (∀ j, timing ≤ j → j < timing + 2 * n → readTiming a j = readTiming b j) →
      decodeLoop a n data_bit timing buf = decodeLoop b n data_bit timing buf := by
  intro n
  induction n with
  | zero => intro d t buf _; rfl
  | succ n ih =>
    intro d t buf h
    have hrest := fun d1 buf1 => ih d1 (t + 2) buf1
      (fun j h1 h2 => h j (by omega) (by omega))
    unfold decodeLoop
    rw [h t (by omega) (by omega), h (t + 1) (by omega) (by omega)]
    simp only [hrest]

/-! ## Short signals and reads -/

/-- C11: a raw signal with fewer than 323 durations makes
`decode_signal_to_tamabits` return false without reading any duration and
with the output buffer as it was; on a raw signal with at least 323 durations
every index the decoder reads is at most 321 (so below the length). The reads
are those of the traced decoder, which computes what the decoder computes. -/
theorem short_signal_rejected (timings : List Nat) (data_bits : List Char) :
    (decode_signal_to_tamabits_traced timings data_bits).1 =
      decode_signal_to_tamabits timings data_bits ∧
    (timings.length < 323 →
      decode_signal_to_tamabits timings data_bits = (false, data_bits) ∧
      (decode_signal_to_tamabits_traced timings data_bits).2 = []) ∧
    (323 ≤ timings.length →
      ∀ i ∈ (decode_signal_to_tamabits_traced timings data_bits).2,
        i ≤ 321 ∧ i < timings.length) := by
  refine ⟨decode_traced_fst timings data_bits, ?_, ?_⟩
  · intro h
    unfold decode_signal_to_tamabits decode_signal_to_tamabits_traced
    rw [if_pos h, if_pos h]
    exact ⟨rfl, rfl⟩
  · intro h i hi
    have hb : i ≤ 321 := by
      unfold decode_signal_to_tamabits_traced at hi
      rw [if_neg (by omega)] at hi
      split at hi
      · simp at hi
        omega
      · split at hi
        · simp at hi
          omega
        · rcases decodeLoopTraced_reads timings 160 0 2 data_bits [0, 1] i hi with h1 | h1
          · simp at h1
            omega
          · omega
    exact ⟨hb, by omega⟩

/-- Witness of `short_signal_rejected`: the first 322 durations of
`zeroSignal`, and `zeroSignal` itself. -/
theorem short_signal_rejected_witness :
    (decode_signal_to_tamabits (zeroSignal.take 322) (List.replicate 160 'x') =
        (false, List.replicate 160 'x') ∧
      (decode_signal_to_tamabits_traced (zeroSignal.take 322) (List.replicate 160 'x')).2 = []) ∧
    (∀ i ∈ (decode_signal_to_tamabits_traced zeroSignal (List.replicate 160 'x')).2,
      i ≤ 321 ∧ i < zeroSignal.length) :=
  ⟨(short_signal_rejected (zeroSignal.take 322) (List.replicate 160 'x')).2.1
      (by rw [List.length_take, zeroSignal_reads.1]; decide),
   (short_signal_rejected zeroSignal (List.replicate 160 'x')).2.2
      (by rw [zeroSignal_reads.1])⟩

/-! ## Helper lemmas: signals with one duration replaced -/

/-- A store at another index does not change a read. -/
theorem readTiming_set_ne (l : List Nat) (i j v : Nat) (h : i ≠ j) :
    readTiming (l.set i v) j = readTiming l j := by
  unfold readTiming
  rw [List.getD_eq_getElem?_getD, List.getD_eq_getElem?_getD, List.getElem?_set_ne h]

/-- A store inside the signal is what the read at its index finds. -/
theorem readTiming_set_self (l : List Nat) (i v : Nat) (h : i < l.length) :
    readTiming (l.set i v) i = v := by
  unfold readTiming
  rw [List.getD_eq_getElem?_getD, List.getElem?_set_self h]
  rfl

/-- The decoder on a signal of at least 323 durations with a matching
preamble is its loop. -/
theorem decode_eq_loop (timings : List Nat) (buf : List Char)
    (hlen : 323 ≤ timings.length)
    (hhm : MATCH_TIMING (readTiming timings 0)
      decoder_states.header_mark decoder_states.header_mark_tolerance = true)
    (hhs : MATCH_TIMING (readTiming timings 1)
      decoder_states.header_space decoder_states.header_space_tolerance = true) :
    decode_signal_to_tamabits timings buf = decodeLoop timings 160 0 2 buf := by
  unfold decode_signal_to_tamabits
  rw [if_neg (by omega)]
  simp [hhm, hhs]

/-- The decoder on a signal of at least 323 durations whose preamble does not
match. -/
theorem decode_bad_preamble (timings : List Nat) (buf : List Char)
    (hlen : 323 ≤ timings.length)
    (h : MATCH_TIMING (readTiming timings 0)
        decoder_states.header_mark decoder_states.header_mark_tolerance = false ∨
      MATCH_TIMING (readTiming timings 1)
        decoder_states.header_space decoder_states.header_space_tolerance = false) :
    decode_signal_to_tamabits timings buf = (false, buf) := by
  unfold decode_signal_to_tamabits
  rw [if_neg (by omega)]
  rcases h with h | h <;> simp [h]

/-- All signals `zeroSignalWith last` have 323 durations and agree with
`zeroSignal` below offset 322. -/
theorem zeroSignalWith_reads (last : Nat) :
    (zeroSignalWith last).length = 323 ∧
    ∀ j, j ≤ 321 → readTiming (zeroSignalWith last) j = readTiming zeroSignal j := by
  have hp : ([9600, 5000] ++ (List.replicate 160 [550, 600]).flatten).length = 322 := by
    set_option maxRecDepth 100000 in decide
  unfold zeroSignalWith zeroSignal readTiming
  generalize [9600, 5000] ++ (List.replicate 160 [550, 600]).flatten = p at hp
  constructor
  · rw [List.length_append, hp]
    rfl
  · intro j hj
    rw [List.getD_eq_getElem?_getD, List.getD_eq_getElem?_getD,
      List.getElem?_append_left (by omega), List.getElem?_append_left (by omega)]

/-! ## Preamble, ambiguous spaces and trailing durations -/

/-- C12: on a raw signal of at least 323 durations whose first duration does
not match the header mark (9600±2000) or whose second does not match the
header space (5000±1500), `decode_signal_to_tamabits` returns false (and
leaves the buffer alone); in particular a signal with a matching preamble is
rejected once its first two durations are swapped. -/
theorem preamble_rejection (raw : List Nat) (buf : List Char) (hlen : 323 ≤ raw.length) :
    ((MATCH_TIMING (readTiming raw 0)
          decoder_states.header_mark decoder_states.header_mark_tolerance = false ∨
        MATCH_TIMING (readTiming raw 1)
          decoder_states.header_space decoder_states.header_space_tolerance = false) →
      decode_signal_to_tamabits raw buf = (false, buf)) ∧
    ((MATCH_TIMING (readTiming raw 0)
          decoder_states.header_mark decoder_states.header_mark_tolerance = true ∧
        MATCH_TIMING (readTiming raw 1)
          decoder_states.header_space decoder_states.header_space_tolerance = true) →
      decode_signal_to_tamabits
        ((raw.set 0 (readTiming raw 1)).set 1 (readTiming raw 0)) buf = (false, buf)) := by
  refine ⟨decode_bad_preamble raw buf hlen, ?_⟩
  intro h
  apply decode_bad_preamble _ buf (by simp; omega)
  left
  rw [readTiming_set_ne _ 1 0 _ (by omega), readTiming_set_self _ 0 _ (by omega)]
  have hs := (MATCH_TIMING_nowrap (readTiming raw 1) 5000 1500 (by decide) (by decide)).mp h.2
  cases hm : MATCH_TIMING (readTiming raw 1)
      decoder_states.header_mark decoder_states.header_mark_tolerance with
  | false => rfl
  | true =>
    have := (MATCH_TIMING_nowrap (readTiming raw 1) 9600 2000 (by decide) (by decide)).mp hm
    omega

/-- Witness of `preamble_rejection`: `zeroSignal` with its first two
durations swapped is rejected. -/
theorem preamble_rejection_witness :
    decode_signal_to_tamabits
      ((zeroSignal.set 0 (readTiming zeroSignal 1)).set 1 (readTiming zeroSignal 0))
      (List.replicate 160 'x') = (false, List.replicate 160 'x') :=
  (preamble_rejection zeroSignal (List.replicate 160 'x') (by rw [zeroSignal_reads.1])).2
    ⟨by rw [zeroSignal_reads.2.1]; decide, by rw [zeroSignal_reads.2.2.1]; decide⟩

/-- C13: take a raw signal of at least 323 durations with a matching preamble
and an `i < 160` whose data mark (offset `2 + 2 * i`) matches, as in every
well-formed signal; replacing the data space at offset `3 + 2 * i` by a value
that matches neither data-0-space (600±400) nor data-1-space (1500±500) makes
`decode_signal_to_tamabits` return false. The values 1000 and 0 are such
values. -/
theorem ambiguous_space_rejection (raw : List Nat) (buf : List Char) (i v : Nat)
    (hlen : 323 ≤ raw.length)
    (hhm : MATCH_TIMING (readTiming raw 0)
      decoder_states.header_mark decoder_states.header_mark_tolerance = true)
    (hhs : MATCH_TIMING (readTiming raw 1)
      decoder_states.header_space decoder_states.header_space_tolerance = true)
    (hi : i < 160)
    (hmark : MATCH_TIMING (readTiming raw (2 + 2 * i))
      decoder_states.data_mark decoder_states.data_mark_tolerance = true)
    (hv0 : MATCH_TIMING v
      decoder_states.data_0_space decoder_states.data_0_space_tolerance = false)
    (hv1 : MATCH_TIMING v
      decoder_states.data_1_space decoder_states.data_1_space_tolerance = false) :
    (decode_signal_to_tamabits (raw.set (3 + 2 * i) v) buf).1 = false ∧
    MATCH_TIMING 1000
      decoder_states.data_0_space decoder_states.data_0_space_tolerance = false ∧
    MATCH_TIMING 1000
      decoder_states.data_1_space decoder_states.data_1_space_tolerance = false ∧
    MATCH_TIMING 0
      decoder_states.data_0_space decoder_states.data_0_space_tolerance = false ∧
    MATCH_TIMING 0
      decoder_states.data_1_space decoder_states.data_1_space_tolerance = false := by
  refine ⟨?_, by decide, by decide, by decide, by decide⟩
  rw [decode_eq_loop _ buf (by simp; omega)
    (by rw [readTiming_set_ne _ _ _ _ (by omega)]; exact hhm)
    (by rw [readTiming_set_ne _ _ _ _ (by omega)]; exact hhs)]
  apply decodeLoop_false
  refine ⟨i, hi, ?_, ?_, ?_⟩
  · rw [readTiming_set_ne _ _ _ _ (by omega)]
    exact hmark
  · rw [show 2 + 2 * i + 1 = 3 + 2 * i by omega, readTiming_set_self _ _ _ (by omega)]
    exact hv0
  · rw [show 2 + 2 * i + 1 = 3 + 2 * i by omega, readTiming_set_self _ _ _ (by omega)]
    exact hv1

/-- Witness of `ambiguous_space_rejection`: `zeroSignal` with the space of
bit 7 (offset 17) set to 1000. -/
theorem ambiguous_space_rejection_witness :
    (decode_signal_to_tamabits (zeroSignal.set (3 + 2 * 7) 1000)
      (List.replicate 160 'x')).1 = false :=
  (ambiguous_space_rejection zeroSignal (List.replicate 160 'x') 7 1000
    (by rw [zeroSignal_reads.1])
    (by rw [zeroSignal_reads.2.1]; decide) (by rw [zeroSignal_reads.2.2.1]; decide)
    (by decide) (by rw [(zeroSignal_reads.2.2.2 7 (by decide)).1]; decide)
    (by decide) (by decide)).1

/-- C17: two raw signals of at least 323 durations that agree on offsets 0
to 321 get the same verdict and the same output bytes from
`decode_signal_to_tamabits` (for the same buffer); in particular the signal
9600, 5000, 160 pairs (550, 600) and any 323rd duration decodes to 160
characters `'0'`. -/
theorem trailing_durations_ignored :
    (∀ (a b : List Nat) (buf : List Char), 323 ≤ a.length → 323 ≤ b.length →
      (∀ j, j ≤ 321 → readTiming a j = readTiming b j) →
      decode_signal_to_tamabits a buf = decode_signal_to_tamabits b buf) ∧
    (∀ (last : Nat) (buf : List Char), buf.length = 160 →
      decode_signal_to_tamabits (zeroSignalWith last) buf =
        (true, List.replicate 160 '0')) := by
  have main : ∀ (a b : List Nat) (buf : List Char), 323 ≤ a.length → 323 ≤ b.length →
      (∀ j, j ≤ 321 → readTiming a j = readTiming b j) →
      decode_signal_to_tamabits a buf = decode_signal_to_tamabits b buf := by
    intro a b buf ha hb h
    unfold decode_signal_to_tamabits
    rw [if_neg (show ¬ a.length < 323 by omega), if_neg (show ¬ b.length < 323 by omega),
      h 0 (by omega), h 1 (by omega),
      decodeLoop_congr a b 160 0 2 buf (fun j _ h2 => h j (by omega))]
  refine ⟨main, ?_⟩
  intro last buf hbuf
  rw [main (zeroSignalWith last) zeroSignal buf
    (by rw [(zeroSignalWith_reads last).1]) (by rw [zeroSignal_reads.1])
    (zeroSignalWith_reads last).2]
  exact decode_zeroSignal buf hbuf

/-- Witness of `trailing_durations_ignored`: the all-zero signal ending in 7
and the one ending in 1100. -/
theorem trailing_durations_ignored_witness :
    decode_signal_to_tamabits (zeroSignalWith 7) (List.replicate 160 'x') =
      decode_signal_to_tamabits zeroSignal (List.replicate 160 'x') ∧
    decode_signal_to_tamabits (zeroSignalWith 7) (List.replicate 160 'x') =
      (true, List.replicate 160 '0') :=
  ⟨trailing_durations_ignored.1 (zeroSignalWith 7) zeroSignal (List.replicate 160 'x')
      (by rw [(zeroSignalWith_reads 7).1]) (by rw [zeroSignal_reads.1])
      (zeroSignalWith_reads 7).2,
   trailing_durations_ignored.2 7 (List.replicate 160 'x') (List.length_replicate 160 'x')⟩

/-! ## Sending -/

/-- The encoder loop never changes the length of the array. -/
theorem encodeLoop_length (b : List Char) :
    ∀ (n i t : Nat) (arr : List Nat), (encodeLoop b n i t arr).2.length = arr.length := by
  intro n
  induction n with
  | zero => intro i t arr; simp [encodeLoop]
  | succ n ih =>
    intro i t arr
    unfold encodeLoop
    simp only
    split
    · rw [ih]; simp
    · split
      · rw [ih]; simp
      · simp

/-- The encoder never changes the length of the array. -/
theorem tamabits_to_timings_length (s : List Char) (arr : List Nat) :
    (tamabits_to_timings s arr).2.length = arr.length := by
  unfold tamabits_to_timings
  split
  · rfl
  · rw [encodeLoop_length]; simp

/-- C15: `send` issues a transmit request if and only if
`tamabits_to_timings` accepts the string; in that case it issues exactly one
request, carrying the 323 encoded timings, the count 323 and the flag true;
on a rejected input it issues no request. -/
theorem send_transmits_iff_encoded (bitstring : List Char) (timings : List Nat)
    (ht : timings.length = 323) :
    (send bitstring timings ≠ [] ↔ (tamabits_to_timings bitstring timings).1 = true) ∧
    ((tamabits_to_timings bitstring timings).1 = true →
      send bitstring timings =
        [IrSend.mk (tamabits_to_timings bitstring timings).2 323 true] ∧
      (tamabits_to_timings bitstring timings).2.length = 323) ∧
    ((tamabits_to_timings bitstring timings).1 = false → send bitstring timings = []) := by
  have hl : (tamabits_to_timings bitstring timings).2.length = 323 := by
    rw [tamabits_to_timings_length, ht]
  have htake : (tamabits_to_timings bitstring timings).2.take 323 =
      (tamabits_to_timings bitstring timings).2 := List.take_of_length_le (by omega)
  unfold send
  simp only [htake]
  cases hv : (tamabits_to_timings bitstring timings).1 with
  | false => simp
  | true => simp [hl]

/-- Witness of `send_transmits_iff_encoded`: the message of 160 zeros is
transmitted, a message of 159 zeros is not. -/
theorem send_transmits_iff_encoded_witness :
    send (List.replicate 160 '0') (List.replicate 323 0) =
      [IrSend.mk (tamabits_to_timings (List.replicate 160 '0') (List.replicate 323 0)).2
        323 true] ∧
    send (List.replicate 159 '0') (List.replicate 323 0) = [] :=
  ⟨((send_transmits_iff_encoded (List.replicate 160 '0') (List.replicate 323 0)
      (List.length_replicate 323 0)).2.1
      ((tamabits_to_timings_verdict _ _).mpr
        ⟨by rw [cstr_eq_self _ (no_NUL_of_bits _
            (fun _ h => Or.inl (List.eq_of_mem_replicate h)))]
            exact List.length_replicate 160 '0',
         fun _ h => Or.inl (List.eq_of_mem_replicate
          ((List.takeWhile_prefix _).subset h))⟩)).1,
   (send_transmits_iff_encoded (List.replicate 159 '0') (List.replicate 323 0)
      (List.length_replicate 323 0)).2.2
      (by
        cases hv : (tamabits_to_timings (List.replicate 159 '0') (List.replicate 323 0)).1 with
        | false => rfl
        | true =>
          have h := ((tamabits_to_timings_verdict _ _).mp hv).1
          have hle := (List.takeWhile_prefix (fun c => c != NUL)
            (l := List.replicate 159 '0')).length_le
          rw [List.length_replicate] at hle
          unfold cstr at h
          omega)⟩

/-! ## A failed decode -/

/-- What `signal_received_callback` does on a signal that does not decode: it
prints a text and leaves the flags alone. -/
theorem signal_received_callback_rejected (sig : List Nat) (stack : List Char)
    (st : AppState) (h : (decode_signal_to_tamabits sig stack).1 = false) :
    signal_received_callback sig stack st =
      (st, [Output.printf "Invalid signal received".toList]) := by
  unfold signal_received_callback
  simp only [h, Bool.false_eq_true, if_false]

/-- C16: on a signal that `decode_signal_to_tamabits` rejects,
`signal_received_callback` sends nothing to the pipe (its only output is the
`printf` of the text "Invalid signal received", which opens no frame) and
leaves both flags unchanged, so the condition of the loop of `listen` is as
before. -/
theorem failed_decode_keeps_session (received_signal : List Nat) (tamabits : List Char)
    (app_state : AppState)
    (h : (decode_signal_to_tamabits received_signal tamabits).1 = false) :
    signal_received_callback received_signal tamabits app_state =
      (app_state, [Output.printf "Invalid signal received".toList]) ∧
    pipeBytes (signal_received_callback received_signal tamabits app_state).2 = [] ∧
    framesEmitted (signal_received_callback received_signal tamabits app_state).2 = 0 ∧
    ∀ pipe_broken : Bool,
      listen_waits (signal_received_callback received_signal tamabits app_state).1 pipe_broken
        = listen_waits app_state pipe_broken := by
  rw [signal_received_callback_rejected received_signal tamabits app_state h]
  refine ⟨rfl, rfl, ?_, fun _ => rfl⟩
  show framesEmitted [Output.printf "Invalid signal received".toList] = 0
  decide

/-- Witness of `failed_decode_keeps_session`: a signal of 322 durations while
`timed_out` is not set. -/
theorem failed_decode_keeps_session_witness :
    signal_received_callback (zeroSignal.take 322) (List.replicate 160 'x')
        (AppState.mk false false) =
      (AppState.mk false false, [Output.printf "Invalid signal received".toList]) :=
  (failed_decode_keeps_session (zeroSignal.take 322) (List.replicate 160 'x')
    (AppState.mk false false)
    (by
      have hs : (zeroSignal.take 322).length < 323 := by
        rw [List.length_take, zeroSignal_reads.1]; decide
      unfold decode_signal_to_tamabits
      rw [if_pos hs])).1

/-! ## The windows of the timing profile -/

/-- C19: no duration matches both data-0-space (600±400) and data-1-space
(1500±500), and none matches both data-mark (550±300) and ending-mark
(1100±250); the shared boundary values 1000 and 850 match neither window of
their pair; and the loop that tests the data-1-space window first computes
the same verdict and bytes as the loop of the source. -/
theorem data_windows_disjoint :
    (∀ x : Nat, ¬ (MATCH_TIMING x
          decoder_states.data_0_space decoder_states.data_0_space_tolerance = true ∧
        MATCH_TIMING x
          decoder_states.data_1_space decoder_states.data_1_space_tolerance = true)) ∧
    (∀ x : Nat, ¬ (MATCH_TIMING x
          decoder_states.data_mark decoder_states.data_mark_tolerance = true ∧
        MATCH_TIMING x
          decoder_states.ending_mark decoder_states.ending_mark_tolerance = true)) ∧
    MATCH_TIMING 1000
      decoder_states.data_0_space decoder_states.data_0_space_tolerance = false ∧
    MATCH_TIMING 1000
      decoder_states.data_1_space decoder_states.data_1_space_tolerance = false ∧
    MATCH_TIMING 850
      decoder_states.data_mark decoder_states.data_mark_tolerance = false ∧
    MATCH_TIMING 850
      decoder_states.ending_mark decoder_states.ending_mark_tolerance = false ∧
    (∀ (timings : List Nat) (n data_bit timing : Nat) (buf : List Char),
      decodeLoopOneFirst timings n data_bit timing buf =
        decodeLoop timings n data_bit timing buf) := by
  have hsp : ∀ x : Nat, ¬ (MATCH_TIMING x
        decoder_states.data_0_space decoder_states.data_0_space_tolerance = true ∧
      MATCH_TIMING x
        decoder_states.data_1_space decoder_states.data_1_space_tolerance = true) := by
    intro x h
    have h0 := (MATCH_TIMING_nowrap x 600 400 (by decide) (by decide)).mp h.1
    have h1 := (MATCH_TIMING_nowrap x 1500 500 (by decide) (by decide)).mp h.2
    omega
  refine ⟨hsp, ?_, by decide, by decide, by decide, by decide, ?_⟩
  · intro x h
    have h0 := (MATCH_TIMING_nowrap x 550 300 (by decide) (by decide)).mp h.1
    have h1 := (MATCH_TIMING_nowrap x 1100 250 (by decide) (by decide)).mp h.2
    omega
  · intro timings n
    induction n with
    | zero => intro d t buf; rfl
    | succ n ih =>
      intro d t buf
      unfold decodeLoopOneFirst decodeLoop
      by_cases hm : MATCH_TIMING (readTiming timings t)
          decoder_states.data_mark decoder_states.data_mark_tolerance = true
      · by_cases h0 : MATCH_TIMING (readTiming timings (t + 1))
            decoder_states.data_0_space decoder_states.data_0_space_tolerance = true
        · have h1 : ¬ MATCH_TIMING (readTiming timings (t + 1))
              decoder_states.data_1_space decoder_states.data_1_space_tolerance = true :=
            fun h1 => hsp _ ⟨h0, h1⟩
          simp only [hm, h0, h1, if_true, if_false]
          exact ih _ _ _
        · by_cases h1 : MATCH_TIMING (readTiming timings (t + 1))
              decoder_states.data_1_space decoder_states.data_1_space_tolerance = true
          · simp only [hm, h0, h1, if_true, if_false]
            exact ih _ _ _
          · simp [hm, h0, h1]
      · simp only [hm, if_false]
        exact ih _ _ _

/-! ## Sessions without a decoded signal -/

/-- The bytes sent to the pipe by two lists of outputs. -/
theorem pipeBytes_append (a b : List Output) :
    pipeBytes (a ++ b) = pipeBytes a ++ pipeBytes b := by
  induction a with
  | nil => rfl
  | cons x xs ih =>
    cases x with
    | pipe_send bytes => simp [pipeBytes, ih]
    | printf text => simp [pipeBytes, ih]

/-- A run in two parts. -/
theorem run_append (s : Session) (a b : List Event) :
    s.run (a ++ b) = (s.run a).run b := by
  unfold Session.run
  rw [List.foldl_append]

/-- After the test of `timed_out`, a step that is not a callback on a
decodable signal stays after the test, sends nothing to the pipe and opens no
frame. -/
theorem step_after_test (s : Session) (e : Event) (he : e.decodes = false)
    (hs : s.phase = Phase.tested ∨ s.phase = Phase.workerStopped ∨
      s.phase = Phase.returned) :
    ((s.step e).phase = Phase.tested ∨ (s.step e).phase = Phase.workerStopped ∨
      (s.step e).phase = Phase.returned) ∧
    pipeBytes (s.step e).out = pipeBytes s.out ∧
    (s.step e).out.filter opensFrame = s.out.filter opensFrame := by
  have hI : opensFrame (Output.printf "Invalid signal received".toList) = false := by decide
  cases e with
  | signal sig stack =>
    have hd : (decode_signal_to_tamabits sig stack).1 = false := he
    have hst : s.step (Event.signal sig stack) =
        if s.phase = Phase.workerStopped ∨ s.phase = Phase.returned then s
        else Session.mk (signal_received_callback sig stack s.app_state).1 s.phase
          (s.out ++ (signal_received_callback sig stack s.app_state).2) := rfl
    rw [hst, signal_received_callback_rejected sig stack s.app_state hd]
    by_cases hp : s.phase = Phase.workerStopped ∨ s.phase = Phase.returned
    · rw [if_pos hp]
      exact ⟨hs, rfl, rfl⟩
    · rw [if_neg hp]
      refine ⟨hs, ?_, ?_⟩
      · show pipeBytes (s.out ++ [Output.printf "Invalid signal received".toList]) = _
        rw [pipeBytes_append]
        exact List.append_nil _
      · show (s.out ++ [Output.printf "Invalid signal received".toList]).filter opensFrame = _
        rw [List.filter_append, List.filter_cons_of_neg (by rw [hI]; decide)]
        exact List.append_nil _
  | timer =>
    have hst : s.step Event.timer =
        if s.phase = Phase.returned then s
        else Session.mk (timed_out_callback s.app_state) s.phase s.out := rfl
    rw [hst]
    by_cases hp : s.phase = Phase.returned
    · rw [if_pos hp]
      exact ⟨hs, rfl, rfl⟩
    · rw [if_neg hp]
      exact ⟨hs, rfl, rfl⟩
  | poll pipe_broken =>
    have hst : s.step (Event.poll pipe_broken) =
        if s.phase = Phase.polling then
          if listen_waits s.app_state pipe_broken then s
          else Session.mk s.app_state Phase.leftLoop s.out
        else s := rfl
    have hp : ¬ s.phase = Phase.polling := by
      rcases hs with h | h | h <;> rw [h] <;> decide
    rw [hst, if_neg hp]
    exact ⟨hs, rfl, rfl⟩
  | leave =>
    have hst : s.step Event.leave =
        if s.phase = Phase.leftLoop then
          Session.mk s.app_state Phase.tested (s.out ++ listen_after_loop s.app_state)
        else s := rfl
    have hp : ¬ s.phase = Phase.leftLoop := by
      rcases hs with h | h | h <;> rw [h] <;> decide
    rw [hst, if_neg hp]
    exact ⟨hs, rfl, rfl⟩
  | stopWorker =>
    have hst : s.step Event.stopWorker =
        if s.phase = Phase.tested then Session.mk s.app_state Phase.workerStopped s.out
        else s := rfl
    rw [hst]
    by_cases hp : s.phase = Phase.tested
    · rw [if_pos hp]
      exact ⟨Or.inr (Or.inl rfl), rfl, rfl⟩
    · rw [if_neg hp]
      exact ⟨hs, rfl, rfl⟩
  | stopTimer =>
    have hst : s.step Event.stopTimer =
        if s.phase = Phase.workerStopped then Session.mk s.app_state Phase.returned s.out
        else s := rfl
    rw [hst]
    by_cases hp : s.phase = Phase.workerStopped
    · rw [if_pos hp]
      exact ⟨Or.inr (Or.inr rfl), rfl, rfl⟩
    · rw [if_neg hp]
      exact ⟨hs, rfl, rfl⟩

/-- After the test of `timed_out`, a run without a callback on a decodable
signal stays after the test, sends nothing to the pipe and opens no frame. -/
theorem run_after_test (events : List Event) :
    ∀ s : Session, (∀ e ∈ events, e.decodes = false) →
      (s.phase = Phase.tested ∨ s.phase = Phase.workerStopped ∨
        s.phase = Phase.returned) →
      ((s.run events).phase = Phase.tested ∨ (s.run events).phase = Phase.workerStopped ∨
        (s.run events).phase = Phase.returned) ∧
      pipeBytes (s.run events).out = pipeBytes s.out ∧
      (s.run events).out.filter opensFrame = s.out.filter opensFrame := by
  induction events with
  | nil => intro s _ hs; exact ⟨hs, rfl, rfl⟩
  | cons e es ih =>
    intro s he hs
    have hrun : s.run (e :: es) = (s.step e).run es := rfl
    obtain ⟨h1, h2, h3⟩ := step_after_test s e (he e (List.mem_cons_self e es)) hs
    obtain ⟨k1, k2, k3⟩ := ih (s.step e) (fun x hx => he x (List.mem_cons_of_mem e hx)) h1
    rw [hrun]
    exact ⟨k1, k2.trans h2, k3.trans h3⟩

/-- Before the test of `timed_out`, a step that is not a callback on a
decodable signal either is that test, or sends nothing to the pipe, opens no
frame and sets `timed_out` exactly when it is the firing of the timer. -/
theorem step_before_test (s : Session) (e : Event) (he : e.decodes = false)
    (hs : s.phase = Phase.polling ∨ s.phase = Phase.leftLoop) :
    ((s.step e).phase = Phase.tested ∨ (s.step e).phase = Phase.workerStopped ∨
      (s.step e).phase = Phase.returned) ∨
    ((s.step e).phase = Phase.polling ∨ (s.step e).phase = Phase.leftLoop) ∧
      pipeBytes (s.step e).out = pipeBytes s.out ∧
      (s.step e).out.filter opensFrame = s.out.filter opensFrame ∧
      ((s.step e).app_state.timed_out = true ↔
        s.app_state.timed_out = true ∨ Event.timer = e) := by
  have hI : opensFrame (Output.printf "Invalid signal received".toList) = false := by decide
  have hnw : ¬ (s.phase = Phase.workerStopped ∨ s.phase = Phase.returned) := by
    rcases hs with h | h <;> rw [h] <;> decide
  have hnr : ¬ s.phase = Phase.returned := fun h => hnw (Or.inr h)
  have hnt : ¬ s.phase = Phase.tested := by
    rcases hs with h | h <;> rw [h] <;> decide
  cases e with
  | signal sig stack =>
    have hd : (decode_signal_to_tamabits sig stack).1 = false := he
    have hst : s.step (Event.signal sig stack) =
        if s.phase = Phase.workerStopped ∨ s.phase = Phase.returned then s
        else Session.mk (signal_received_callback sig stack s.app_state).1 s.phase
          (s.out ++ (signal_received_callback sig stack s.app_state).2) := rfl
    rw [hst, signal_received_callback_rejected sig stack s.app_state hd, if_neg hnw]
    refine Or.inr ⟨hs, ?_, ?_, ?_⟩
    · show pipeBytes (s.out ++ [Output.printf "Invalid signal received".toList]) = _
      rw [pipeBytes_append]
      exact List.append_nil _
    · show (s.out ++ [Output.printf "Invalid signal received".toList]).filter opensFrame = _
      rw [List.filter_append, List.filter_cons_of_neg (by rw [hI]; decide)]
      exact List.append_nil _
    · exact ⟨Or.inl, fun h => h.elim id (fun h => Event.noConfusion h)⟩
  | timer =>
    have hst : s.step Event.timer =
        if s.phase = Phase.returned then s
        else Session.mk (timed_out_callback s.app_state) s.phase s.out := rfl
    rw [hst, if_neg hnr]
    exact Or.inr ⟨hs, rfl, rfl, ⟨fun _ => Or.inr rfl, fun _ => rfl⟩⟩
  | poll pipe_broken =>
    have hst : s.step (Event.poll pipe_broken) =
        if s.phase = Phase.polling then
          if listen_waits s.app_state pipe_broken then s
          else Session.mk s.app_state Phase.leftLoop s.out
        else s := rfl
    have hiff : s.app_state.timed_out = true ↔
        s.app_state.timed_out = true ∨ Event.timer = Event.poll pipe_broken :=
      ⟨Or.inl, fun h => h.elim id (fun h => Event.noConfusion h)⟩
    rw [hst]
    by_cases hp : s.phase = Phase.polling
    · rw [if_pos hp]
      by_cases hw : listen_waits s.app_state pipe_broken = true
      · rw [if_pos hw]
        exact Or.inr ⟨hs, rfl, rfl, hiff⟩
      · rw [if_neg hw]
        exact Or.inr ⟨Or.inr rfl, rfl, rfl, hiff⟩
    · rw [if_neg hp]
      exact Or.inr ⟨hs, rfl, rfl, hiff⟩
  | leave =>
    have hst : s.step Event.leave =
        if s.phase = Phase.leftLoop then
          Session.mk s.app_state Phase.tested (s.out ++ listen_after_loop s.app_state)
        else s := rfl
    rw [hst]
    by_cases hp : s.phase = Phase.leftLoop
    · rw [if_pos hp]
      exact Or.inl (Or.inl rfl)
    · rw [if_neg hp]
      exact Or.inr ⟨hs, rfl, rfl,
        ⟨Or.inl, fun h => h.elim id (fun h => Event.noConfusion h)⟩⟩
  | stopWorker =>
    have hst : s.step Event.stopWorker =
        if s.phase = Phase.tested then Session.mk s.app_state Phase.workerStopped s.out
        else s := rfl
    rw [hst, if_neg hnt]
    exact Or.inr ⟨hs, rfl, rfl,
      ⟨Or.inl, fun h => h.elim id (fun h => Event.noConfusion h)⟩⟩
  | stopTimer =>
    have hst : s.step Event.stopTimer =
        if s.phase = Phase.workerStopped then Session.mk s.app_state Phase.returned s.out
        else s := rfl
    rw [hst, if_neg (fun h => hnw (Or.inl h))]
    exact Or.inr ⟨hs, rfl, rfl,
      ⟨Or.inl, fun h => h.elim id (fun h => Event.noConfusion h)⟩⟩

/-- A run without a callback on a decodable signal that ends before the test
of `timed_out` has sent nothing to the pipe and opened no frame, and
`timed_out` is set at its end exactly when it was set at its start or the
timer fired in it. -/
theorem run_before_test (events : List Event) :
    ∀ s : Session, (∀ e ∈ events, e.decodes = false) →
      (s.phase = Phase.polling ∨ s.phase = Phase.leftLoop) →
      ((s.run events).phase = Phase.polling ∨ (s.run events).phase = Phase.leftLoop) →
      pipeBytes (s.run events).out = pipeBytes s.out ∧
      (s.run events).out.filter opensFrame = s.out.filter opensFrame ∧
      ((s.run events).app_state.timed_out = true ↔
        s.app_state.timed_out = true ∨ Event.timer ∈ events) := by
  induction events with
  | nil =>
    intro s _ _ _
    exact ⟨rfl, rfl, ⟨Or.inl, fun h => h.elim id (fun h => absurd h (List.not_mem_nil _))⟩⟩
  | cons e es ih =>
    intro s he hs hend
    have hrun : s.run (e :: es) = (s.step e).run es := rfl
    have hes : ∀ x ∈ es, x.decodes = false := fun x hx => he x (List.mem_cons_of_mem e hx)
    rw [hrun] at hend ⊢
    rcases step_before_test s e (he e (List.mem_cons_self e es)) hs with hl | ⟨h0, h1, h2, h3⟩
    · obtain ⟨hlate, _, _⟩ := run_after_test es (s.step e) hes hl
      rcases hend with h | h <;> rw [h] at hlate <;>
        exact absurd hlate (by decide)
    · obtain ⟨k1, k2, k3⟩ := ih (s.step e) hes h0 hend
      refine ⟨k1.trans h1, k2.trans h2, ?_⟩
      rw [k3, h3, List.mem_cons]
      constructor
      · rintro ((h | h) | h)
        · exact Or.inl h
        · exact Or.inr (Or.inl h)
        · exact Or.inr (Or.inr h)
      · rintro (h | h | h)
        · exact Or.inl (Or.inl h)
        · exact Or.inl (Or.inr h)
        · exact Or.inr h

/-- C18 (as stated, refuted): in the run where the pipe is found broken, the
test of `timed_out` finds it clear, and the timer fires after that test and
before it is stopped, no signal decodes and the timer fires (the session ends
with `timed_out` set), yet nothing at all is emitted, not the one timeout
frame. -/
theorem late_timer_emits_no_frame :
    (∀ e ∈ [Event.poll true, Event.leave, Event.timer, Event.stopWorker, Event.stopTimer],
      e.decodes = false) ∧
    Event.timer ∈
      [Event.poll true, Event.leave, Event.timer, Event.stopWorker, Event.stopTimer] ∧
    (Session.start.run
      [Event.poll true, Event.leave, Event.timer, Event.stopWorker,
        Event.stopTimer]).app_state.timed_out = true ∧
    (Session.start.run
      [Event.poll true, Event.leave, Event.timer, Event.stopWorker,
        Event.stopTimer]).phase = Phase.returned ∧
    (Session.start.run
      [Event.poll true, Event.leave, Event.timer, Event.stopWorker,
        Event.stopTimer]).out = [] := by
  refine ⟨by decide, ?_, by decide, by decide, by decide⟩
  exact List.mem_cons_of_mem _ (List.mem_cons_of_mem _ (List.mem_cons_self _ _))

/-- C18 (amended): when the loop of `listen` has exited, the code after it
prints exactly the text "[PICO]timed out[END]" if `timed_out` is set at that
test and nothing otherwise. Hence, in every run of a session in which no
callback gets a signal that decodes and `listen` reaches that test, nothing
is sent to the pipe and the frames emitted are exactly the one timeout frame
when the timer fired before the test, and none when it did not (so none for a
session that ends by cancellation with both flags clear, also when the timer
fires after the test); and a run that has not reached the test has emitted
nothing. -/
theorem timeout_and_cancellation :
    (∀ s : Session, s.phase = Phase.leftLoop →
      (s.step Event.leave).out =
        s.out ++ (if s.app_state.timed_out = true then
          [Output.printf "[PICO]timed out[END]".toList] else [])) ∧
    (∀ pre post : List Event,
      (∀ e ∈ pre, e.decodes = false) → (∀ e ∈ post, e.decodes = false) →
      (Session.start.run pre).phase = Phase.leftLoop →
      pipeBytes (Session.start.run (pre ++ Event.leave :: post)).out = [] ∧
      (Event.timer ∈ pre →
        (Session.start.run (pre ++ Event.leave :: post)).out.filter opensFrame =
          [Output.printf "[PICO]timed out[END]".toList]) ∧
      (Event.timer ∉ pre →
        (Session.start.run (pre ++ Event.leave :: post)).out.filter opensFrame = [])) ∧
    (∀ events : List Event, (∀ e ∈ events, e.decodes = false) →
      ((Session.start.run events).phase = Phase.polling ∨
        (Session.start.run events).phase = Phase.leftLoop) →
      pipeBytes (Session.start.run events).out = [] ∧
      (Session.start.run events).out.filter opensFrame = []) := by
  have hT : opensFrame (Output.printf "[PICO]timed out[END]".toList) = true := by decide
  have hleave : ∀ s : Session, s.phase = Phase.leftLoop →
      s.step Event.leave =
        Session.mk s.app_state Phase.tested (s.out ++ listen_after_loop s.app_state) := by
    intro s hp
    have hst : s.step Event.leave =
        if s.phase = Phase.leftLoop then
          Session.mk s.app_state Phase.tested (s.out ++ listen_after_loop s.app_state)
        else s := rfl
    rw [hst, if_pos hp]
  refine ⟨?_, ?_, ?_⟩
  · intro s hp
    rw [hleave s hp]
    rfl
  · intro pre post hpre hpost hp
    obtain ⟨p1, p2, p3⟩ := run_before_test pre Session.start hpre (Or.inl rfl) (Or.inr hp)
    have hrun : Session.start.run (pre ++ Event.leave :: post) =
        ((Session.start.run pre).step Event.leave).run post := by
      rw [run_append]
      rfl
    obtain ⟨_, q2, q3⟩ := run_after_test post ((Session.start.run pre).step Event.leave)
      hpost (by rw [hleave _ hp]; exact Or.inl rfl)
    rw [hrun, q2, q3, hleave _ hp]
    have hp2 : pipeBytes (Session.start.run pre).out = [] := p1
    have hp3 : (Session.start.run pre).out.filter opensFrame = [] := p2
    have hfired : (Session.start.run pre).app_state.timed_out = true ↔ Event.timer ∈ pre := by
      rw [p3]
      exact ⟨fun h => h.elim (fun h => absurd h (by decide)) id, Or.inr⟩
    refine ⟨?_, ?_, ?_⟩
    · show pipeBytes ((Session.start.run pre).out ++
        listen_after_loop (Session.start.run pre).app_state) = []
      rw [pipeBytes_append, hp2]
      unfold listen_after_loop
      split <;> rfl
    · intro ht
      show ((Session.start.run pre).out ++
        listen_after_loop (Session.start.run pre).app_state).filter opensFrame = _
      unfold listen_after_loop
      rw [List.filter_append, hp3, if_pos (hfired.mpr ht), List.filter_cons_of_pos hT]
      rfl
    · intro ht
      show ((Session.start.run pre).out ++
        listen_after_loop (Session.start.run pre).app_state).filter opensFrame = _
      unfold listen_after_loop
      rw [List.filter_append, hp3, if_neg (fun h => ht (hfired.mp h))]
      rfl
  · intro events he hend
    obtain ⟨p1, p2, _⟩ := run_before_test events Session.start he (Or.inl rfl) hend
    exact ⟨p1, p2⟩

/-- Witness of `timeout_and_cancellation`: a session with one undecodable
signal in which the timer fires before the test emits the timeout frame; a
session cancelled at once, in which the timer fires after the test, emits no
frame. -/
theorem timeout_and_cancellation_witness :
    (Session.start.run
      ([Event.signal [9600, 5000, 550] (List.replicate 160 'x'), Event.timer,
          Event.poll false] ++
        Event.leave :: [Event.stopWorker, Event.stopTimer])).out.filter opensFrame =
      [Output.printf "[PICO]timed out[END]".toList] ∧
    (Session.start.run
      ([Event.poll true] ++
        Event.leave :: [Event.timer, Event.stopWorker, Event.stopTimer])).out.filter
          opensFrame = [] :=
  ⟨(timeout_and_cancellation.2.1
      [Event.signal [9600, 5000, 550] (List.replicate 160 'x'), Event.timer, Event.poll false]
      [Event.stopWorker, Event.stopTimer] (by decide) (by decide) (by decide)).2.1
      (List.mem_cons_of_mem _ (List.mem_cons_self _ _)),
   (timeout_and_cancellation.2.1 [Event.poll true]
      [Event.timer, Event.stopWorker, Event.stopTimer] (by decide) (by decide) (by decide)).2.2
      (fun h => by
        rcases List.mem_singleton.mp h with h
        exact Event.noConfusion h)⟩

/-! ## The command line -/

/-- The literal fails with 0 on an input that neither starts with it nor is a
prefix of it. -/
theorem scanLiteral_mismatch :
    ∀ (lit input : List Char), ¬ lit <+: input → ¬ input <+: lit →
      scanLiteral lit input = Except.error 0 := by
  intro lit
  induction lit with
  | nil =>
    intro input h _
    exact absurd List.nil_prefix h
  | cons f fs ih =>
    intro input h1 h2
    cases input with
    | nil => exact absurd List.nil_prefix h2
    | cons c cs =>
      unfold scanLiteral
      by_cases hc : c = f
      · rw [if_pos hc]
        apply ih cs
        · intro hp
          exact h1 (List.cons_prefix_cons.mpr ⟨hc.symm, hp⟩)
        · intro hp
          exact h2 (List.cons_prefix_cons.mpr ⟨hc, hp⟩)
      · rw [if_neg hc]

/-- The literal is matched at the start of an input that begins with it. -/
theorem scanLiteral_match :
    ∀ (lit rest : List Char), scanLiteral lit (lit ++ rest) = Except.ok rest := by
  intro lit
  induction lit with
  | nil => intro rest; cases rest <;> rfl
  | cons f fs ih =>
    intro rest
    show scanLiteral (f :: fs) (f :: (fs ++ rest)) = Except.ok rest
    unfold scanLiteral
    rw [if_pos rfl]
    exact ih rest

/-- The scan of an argument that is "send" followed by a run of characters
without white space: the run is stored when it has at most 160 characters,
and the behaviour is undefined when it has more. -/
theorem sscanf_send_token (args bitstring token : List Char)
    (h : cstr args = ['s', 'e', 'n', 'd'] ++ token) (hne : token ≠ [])
    (hsp : ∀ c ∈ token, isspace c = false) :
    sscanf_send args bitstring = if token.length ≤ 160 then some (1, token) else none := by
  unfold sscanf_send
  rw [h, scanLiteral_match]
  cases token with
  | nil => exact absurd rfl hne
  | cons c cs =>
    have hc : isspace c = false := hsp c (List.mem_cons_self c cs)
    have hd : List.dropWhile isspace (c :: cs) = c :: cs := by
      rw [List.dropWhile_cons_of_neg (by rw [hc]; decide)]
    simp only [hd]
    have ht : List.takeWhile (fun x => !isspace x) (c :: cs) = c :: cs := by
      rw [List.takeWhile_eq_self_iff]
      intro x hx
      rw [hsp x hx]
      rfl
    rw [ht]

/-- C14 (as stated, refuted): the argument "send01" is neither "listen" nor
"send" followed by 160 characters `'0'`/`'1'`, yet `tamagometer_start_cli`
prints nothing: it calls `send` on "01" (which attempts the encoding and,
the string being rejected, makes no transmit request). -/
theorem cli_send_prefix_not_reported :
    cstr ['s', 'e', 'n', 'd', '0', '1'] = ['s', 'e', 'n', 'd', '0', '1'] ∧
    ['s', 'e', 'n', 'd', '0', '1'] ≠ ['l', 'i', 's', 't', 'e', 'n'] ∧
    (¬ ∃ bits : List Char, ['s', 'e', 'n', 'd', '0', '1'] = ['s', 'e', 'n', 'd'] ++ bits ∧
      bits.length = 160 ∧ ∀ c ∈ bits, c = '0' ∨ c = '1') ∧
    tamagometer_start_cli ['s', 'e', 'n', 'd', '0', '1']
        (List.replicate 161 'x') (List.replicate 323 0) =
      some (AppState.mk false false, CliOutcome.send ['0', '1'] []) ∧
    tamagometer_start_cli ['s', 'e', 'n', 'd', '0', '1']
        (List.replicate 161 'x') (List.replicate 323 0) ≠
      some (AppState.mk false false,
        CliOutcome.invalid (invalidArgumentMessage ['s', 'e', 'n', 'd', '0', '1'])) := by
  have hrun : tamagometer_start_cli ['s', 'e', 'n', 'd', '0', '1']
      (List.replicate 161 'x') (List.replicate 323 0) =
      some (AppState.mk false false, CliOutcome.send ['0', '1'] []) := by
    set_option maxRecDepth 100000 in decide
  refine ⟨by decide, by decide, ?_, hrun, ?_⟩
  · rintro ⟨bits, hb, hl, _⟩
    have h := congrArg List.length hb
    rw [List.length_append, hl] at h
    exact absurd h (by decide)
  · rw [hrun]
    intro h
    exact CliOutcome.noConfusion (Prod.mk.inj (Option.some.inj h)).2

/-- C14 (amended): an argument string that neither starts with "send" nor is
a prefix of "send", and that is not exactly "listen", makes
`tamagometer_start_cli` print the invalid-argument message and call neither
`send` nor `listen`; an argument that is "send" immediately followed by a
non-empty run of at most 160 characters without white space makes it call
`send` on that run without printing, and `send` then makes no transmit
request unless the run is exactly 160 characters `'0'`/`'1'`. (A longer run
does not fit the array `bitstring`; nothing is stated about it.) -/
theorem cli_dispatch (args bitstring : List Char) (timings : List Nat) :
    (¬ ['s', 'e', 'n', 'd'] <+: cstr args → ¬ cstr args <+: ['s', 'e', 'n', 'd'] →
      cstr args ≠ ['l', 'i', 's', 't', 'e', 'n'] →
      tamagometer_start_cli args bitstring timings =
        some (AppState.mk false false, CliOutcome.invalid (invalidArgumentMessage args))) ∧
    (∀ token : List Char, cstr args = ['s', 'e', 'n', 'd'] ++ token → token ≠ [] →
      token.length ≤ 160 → (∀ c ∈ token, isspace c = false) →
      tamagometer_start_cli args bitstring timings =
        some (AppState.mk false false, CliOutcome.send token (send token timings)) ∧
      (¬ (token.length = 160 ∧ ∀ c ∈ token, c = '0' ∨ c = '1') →
        send token timings = [])) := by
  constructor
  · intro h1 h2 h3
    have hs : sscanf_send args bitstring = some (0, bitstring) := by
      unfold sscanf_send
      rw [scanLiteral_mismatch _ _ h1 h2]
    have hl : strcmp_eq args ['l', 'i', 's', 't', 'e', 'n'] = false := by
      unfold strcmp_eq
      rw [show cstr ['l', 'i', 's', 't', 'e', 'n'] = ['l', 'i', 's', 't', 'e', 'n'] by decide]
      exact beq_false_of_ne h3
    unfold tamagometer_start_cli
    simp [hs, hl]
  · intro token ht hne hlen hsp
    have hs : sscanf_send args bitstring = some (1, token) := by
      rw [sscanf_send_token args bitstring token ht hne hsp, if_pos hlen]
    refine ⟨?_, ?_⟩
    · unfold tamagometer_start_cli
      simp [hs]
    · intro hbad
      have hnul : ∀ c ∈ token, c ≠ NUL := by
        intro c hc
        have hmem : c ∈ cstr args := by
          rw [ht]
          exact List.mem_append_right _ hc
        have := List.mem_takeWhile_imp hmem
        simpa using this
      unfold send
      cases hv : (tamabits_to_timings token timings).1 with
      | false => simp [hv]
      | true =>
        have h := (tamabits_to_timings_verdict token timings).mp hv
        rw [cstr_eq_self token hnul] at h
        exact absurd h hbad

/-- Witness of `cli_dispatch`: the argument "foo" gets the invalid-argument
message, and "send01" is handed to `send`, which transmits nothing. -/
theorem cli_dispatch_witness :
    tamagometer_start_cli ['f', 'o', 'o'] (List.replicate 161 'x') (List.replicate 323 0) =
      some (AppState.mk false false,
        CliOutcome.invalid (invalidArgumentMessage ['f', 'o', 'o'])) ∧
    send ['0', '1'] (List.replicate 323 0) = [] :=
  ⟨(cli_dispatch ['f', 'o', 'o'] (List.replicate 161 'x') (List.replicate 323 0)).1
      (by decide) (by decide) (by decide),
   ((cli_dispatch ['s', 'e', 'n', 'd', '0', '1'] (List.replicate 161 'x')
      (List.replicate 323 0)).2 ['0', '1'] (by decide) (by decide) (by decide)
      (by decide)).2
      (fun h => absurd h.1 (by decide))⟩

/-- The model on an argument whose run is too long for the array: "send"
followed by 161 zeros has no defined result. -/
theorem cli_overflow_undefined (bitstring : List Char) (timings : List Nat) :
    tamagometer_start_cli (['s', 'e', 'n', 'd'] ++ List.replicate 161 '0') bitstring timings =
      none := by
  have hc : cstr (['s', 'e', 'n', 'd'] ++ List.replicate 161 '0') =
      ['s', 'e', 'n', 'd'] ++ List.replicate 161 '0' := by
    apply cstr_eq_self
    intro c hc
    rcases List.mem_append.mp hc with h | h
    · have hlit : ∀ x ∈ ['s', 'e', 'n', 'd'], x ≠ NUL := by decide
      exact hlit c h
    · rw [List.eq_of_mem_replicate h]
      decide
  have hs := sscanf_send_token (['s', 'e', 'n', 'd'] ++ List.replicate 161 '0') bitstring
    (List.replicate 161 '0') hc
    (by intro h; have := congrArg List.length h; rw [List.length_replicate] at this
        exact absurd this (by decide))
    (fun c h => by rw [List.eq_of_mem_replicate h]; decide)
  rw [List.length_replicate, if_neg (by decide)] at hs
  unfold tamagometer_start_cli
  rw [hs]

end Tamagometer
